import Mathlib

/-!
Verification of the corner-rounding polyline renderer (`cornrad.py`).

The source draws a polyline with rounded corners: for each sliding window of
three consecutive control points `A`, `g`, `B` (the middle one carrying a
fillet radius) it computes unit direction vectors, the interior angle
`θ = acos(clamp(Ag·(-gB)))`, tangent points at distance `r / tan(θ/2)` from
the corner, a circle center at distance `r / sin(θ/2)` along the angle
bisector, arc start/end angles via `atan2`, a cross-product based swap and a
`±2π` normalization of the end angle, and finally emits a line, an arc and
(on the last window) a closing line, overwriting `points[i+1]` with the
outgoing tangent point.  Degenerate windows (short segments, angle within
`1e-10` of `0` or `π`) are skipped.  Debug mode additionally emits marker
circles and reference lines wrapped in stroke-style changes.

The embedding below mirrors the source over `ℝ` (the idealized exact-real
semantics of the floating-point program): `math.sqrt`/`acos`/`tan`/`sin`
become `Real.sqrt`/`Real.arccos`/`Real.tan`/`Real.sin`, `math.atan2 y x`
becomes `Complex.arg ⟨x, y⟩`, the drawing backend becomes a trace of
emission events, and the in-place list mutation becomes `List.set`.
-/

namespace Cornrad

noncomputable section

/-- A control point `(x, y, r)` as stored in `self.points`. -/
abbrev CPoint : Type := ℝ × ℝ × ℝ

/-- The three points of one sliding window, as unpacked at the top of the
loop body of `CornerRadiusLineSet.draw`: `A = points[i]`,
`g = points[i+1]` (with its radius), `B = points[i+2]`. -/
structure Win where
  Ax : ℝ
  Ay : ℝ
  gx : ℝ
  gy : ℝ
  Bx : ℝ
  By : ℝ
  radius : ℝ

/-- The epsilon threshold `1e-10` used by all degeneracy checks in the
source. -/
def eps : ℝ := 1 / 10 ^ 10

/-- `Ag_length = math.sqrt(Ag_vector[0]**2 + Ag_vector[1]**2)`. -/
def AgLen (w : Win) : ℝ := Real.sqrt ((w.gx - w.Ax) ^ 2 + (w.gy - w.Ay) ^ 2)

/-- `gB_length = math.sqrt(gB_vector[0]**2 + gB_vector[1]**2)`. -/
def gBLen (w : Win) : ℝ := Real.sqrt ((w.Bx - w.gx) ^ 2 + (w.By - w.gy) ^ 2)

/-- The first skip condition: `Ag_length < 1e-10 or gB_length < 1e-10`. -/
def lenSkip (w : Win) : Prop := AgLen w < eps ∨ gBLen w < eps

instance lenSkipDec (w : Win) : Decidable (lenSkip w) := by
  unfold lenSkip; infer_instance

/-- `Ag_unit[0]`. -/
def ux (w : Win) : ℝ := (w.gx - w.Ax) / AgLen w

/-- `Ag_unit[1]`. -/
def uy (w : Win) : ℝ := (w.gy - w.Ay) / AgLen w

/-- `gB_unit[0]`. -/
def vx (w : Win) : ℝ := (w.Bx - w.gx) / gBLen w

/-- `gB_unit[1]`. -/
def vy (w : Win) : ℝ := (w.By - w.gy) / gBLen w

/-- The clamped dot product
`max(-1.0, min(1.0, Ag_unit · neg_gB_unit))`. -/
def dotc (w : Win) : ℝ :=
  max (-1) (min 1 (ux w * -vx w + uy w * -vy w))

/-- `interior_angle = math.acos(dot_product)`. -/
def theta (w : Win) : ℝ := Real.arccos (dotc w)

/-- The second skip condition:
`interior_angle < 1e-10 or interior_angle > math.pi - 1e-10`. -/
def angSkip (w : Win) : Prop := theta w < eps ∨ theta w > Real.pi - eps

instance angSkipDec (w : Win) : Decidable (angSkip w) := by
  unfold angSkip; infer_instance

/-- `tangent_distance = radius / math.tan(interior_angle / 2)`. -/
def tdist (w : Win) : ℝ := w.radius / Real.tan (theta w / 2)

/-- The tangent point `(ax, ay)` on the incoming segment. -/
def tanA (w : Win) : ℝ × ℝ :=
  (w.gx - tdist w * ux w, w.gy - tdist w * uy w)

/-- The tangent point `(bx, by)` on the outgoing segment. -/
def tanB (w : Win) : ℝ × ℝ :=
  (w.gx + tdist w * vx w, w.gy + tdist w * vy w)

/-- `bisector_x = -Ag_unit[0] + gB_unit[0]`. -/
def bisX (w : Win) : ℝ := -ux w + vx w

/-- `bisector_y = -Ag_unit[1] + gB_unit[1]`. -/
def bisY (w : Win) : ℝ := -uy w + vy w

/-- `bisector_length = math.sqrt(bisector_x**2 + bisector_y**2)`. -/
def bisLen (w : Win) : ℝ := Real.sqrt (bisX w ^ 2 + bisY w ^ 2)

/-- `bisector_unit`, with the perpendicular fallback branch taken when
`bisector_length < 1e-10` (in that branch the source sets the bisector to
`(Ag_unit[1], -Ag_unit[0])` and the length to `1.0` before dividing). -/
def bisUnit (w : Win) : ℝ × ℝ :=
  if bisLen w < eps then (uy w, -ux w)
  else (bisX w / bisLen w, bisY w / bisLen w)

/-- `center_distance = radius / math.sin(interior_angle / 2)`. -/
def cdist (w : Win) : ℝ := w.radius / Real.sin (theta w / 2)

/-- The circle center `(cx, cy) = g + center_distance * bisector_unit`. -/
def center (w : Win) : ℝ × ℝ :=
  (w.gx + cdist w * (bisUnit w).1, w.gy + cdist w * (bisUnit w).2)

/-- `math.atan2(y, x)`, embedded as the argument of the complex number
`x + y·i` (both have range `(-π, π]` and agree everywhere, including
`atan2(0, 0) = 0 = arg 0`). -/
def atan2 (y x : ℝ) : ℝ := Complex.arg ⟨x, y⟩

/-- `start_angle = math.atan2(ca_vector[1], ca_vector[0])` before the
cross-product swap. -/
def startAngle0 (w : Win) : ℝ :=
  atan2 ((tanA w).2 - (center w).2) ((tanA w).1 - (center w).1)

/-- `end_angle = math.atan2(cb_vector[1], cb_vector[0])` before the
cross-product swap. -/
def endAngle0 (w : Win) : ℝ :=
  atan2 ((tanB w).2 - (center w).2) ((tanB w).1 - (center w).1)

/-- `cross_z = ca_vector[0]*cb_vector[1] - ca_vector[1]*cb_vector[0]`. -/
def crossZ (w : Win) : ℝ :=
  ((tanA w).1 - (center w).1) * ((tanB w).2 - (center w).2) -
    ((tanA w).2 - (center w).2) * ((tanB w).1 - (center w).1)

/-- The start angle after the swap performed when `cross_z < 0`. -/
def startAngle (w : Win) : ℝ :=
  if crossZ w < 0 then endAngle0 w else startAngle0 w

/-- The end angle after the swap performed when `cross_z < 0`, before
normalization. -/
def endAngle1 (w : Win) : ℝ :=
  if crossZ w < 0 then startAngle0 w else endAngle0 w

/-- The end angle actually passed to `vsk.arc`: after the swap, `2π` is
subtracted or added when `abs(end_angle - start_angle) > π`. -/
def endAngle (w : Win) : ℝ :=
  if |endAngle1 w - startAngle w| > Real.pi then
    (if endAngle1 w > startAngle w then endAngle1 w - 2 * Real.pi
     else endAngle1 w + 2 * Real.pi)
  else endAngle1 w

/-- One drawing-backend call recorded in the emission trace:
`vsk.line`, `vsk.arc(..., mode="center")`, `vsk.circle` or `vsk.stroke`. -/
inductive Emit where
  | line (x1 y1 x2 y2 : ℝ)
  | arc (x y width height start stop : ℝ)
  | circle (x y r : ℝ)
  | stroke (v : ℤ)

/-- The trace produced by `with self._debug_draw(vsk, v): body` when
`self.debug` is true and the body raises no exception: set stroke to `v`,
run the body, set stroke to the hard-coded `original_stroke = 1`. -/
def debugWrap (v : ℤ) (body : List Emit) : List Emit :=
  (Emit.stroke v :: body) ++ [Emit.stroke 1]

/-- The debug reference lines `A→g` and `g→B` drawn (before any skip check)
at the top of each window when `self.debug` is true. -/
def dbgPre (w : Win) : List Emit :=
  debugWrap 2 [Emit.line w.Ax w.Ay w.gx w.gy, Emit.line w.gx w.gy w.Bx w.By]

/-- The debug construction circle, tangent-point markers and bisector ray
drawn after the center is computed when `self.debug` is true. -/
def dbgMid (w : Win) : List Emit :=
  debugWrap 2 [Emit.circle (center w).1 (center w).2 w.radius] ++
    debugWrap 3 [Emit.circle (tanA w).1 (tanA w).2 (5 / 100),
      Emit.circle (tanB w).1 (tanB w).2 (5 / 100)] ++
    debugWrap 3 [Emit.line w.gx w.gy (w.gx + 1 / 2 * (bisUnit w).1)
      (w.gy + 1 / 2 * (bisUnit w).2)]

/-- The non-debug emissions of one window: the connecting line `A→a`, the
arc `vsk.arc(cx, cy, 2r, -2r, start, end, mode="center")`, and, when this
is the last window, the closing line `b→B`. -/
def coreEmits (w : Win) (isLast : Bool) : List Emit :=
  [Emit.line w.Ax w.Ay (tanA w).1 (tanA w).2,
   Emit.arc (center w).1 (center w).2 (2 * w.radius) (-(2 * w.radius))
     (startAngle w) (endAngle w)] ++
    (if isLast then [Emit.line (tanB w).1 (tanB w).2 w.Bx w.By] else [])

/-- The window read from the current point list at index `i`:
`A = points[i]`, `g = points[i+1]`, `B = points[i+2]`. -/
def winAt (pts : List CPoint) (i : ℕ) : Win :=
  { Ax := (pts.getD i (0, 0, 0)).1
    Ay := (pts.getD i (0, 0, 0)).2.1
    gx := (pts.getD (i + 1) (0, 0, 0)).1
    gy := (pts.getD (i + 1) (0, 0, 0)).2.1
    Bx := (pts.getD (i + 2) (0, 0, 0)).1
    By := (pts.getD (i + 2) (0, 0, 0)).2.1
    radius := (pts.getD (i + 1) (0, 0, 0)).2.2 }

/-- One iteration of the window loop of `draw`: emits the debug reference
lines, applies the two skip checks (`continue`), otherwise emits the debug
construction drawings, the core line/arc(/closing line) emissions, and
overwrites `points[i+1]` with the outgoing tangent point, keeping its
radius (guarded by `len(self.points) > 1` as in the source). -/
def drawStep (debug : Bool) (pts : List CPoint) (i lastIdx : ℕ) :
    List CPoint × List Emit :=
  if lenSkip (winAt pts i) then (pts, if debug then dbgPre (winAt pts i) else [])
  else if angSkip (winAt pts i) then
    (pts, if debug then dbgPre (winAt pts i) else [])
  else
    ((if 1 < pts.length then
        pts.set (i + 1) ((tanB (winAt pts i)).1, (tanB (winAt pts i)).2,
          (pts.getD (i + 1) (0, 0, 0)).2.2)
      else pts),
     (if debug then dbgPre (winAt pts i) else []) ++
       (if debug then dbgMid (winAt pts i) else []) ++
       coreEmits (winAt pts i) (i == lastIdx))

/-- The window loop `for i in range(len(points) - 2)`, run with `fuel`
remaining iterations starting at index `i`; `lastIdx = len(points) - 3`
feeds the `i == len(self.points) - 3` check. -/
def runFrom (debug : Bool) : ℕ → List CPoint → ℕ → ℕ → List CPoint × List Emit
  | 0, pts, _, _ => (pts, [])
  | fuel + 1, pts, i, lastIdx =>
    let r1 := drawStep debug pts i lastIdx
    let r2 := runFrom debug fuel r1.1 (i + 1) lastIdx
    (r2.1, r1.2 ++ r2.2)

/-- The debug marker circles drawn at every control point's original
position before the rounding pass. -/
def pointCirclesGo : List CPoint → List Emit
  | [] => []
  | p :: rest => debugWrap 2 [Emit.circle p.1 p.2.1 (1 / 10)] ++ pointCirclesGo rest

/-- The debug marker-circle pass, empty when `self.debug` is false. -/
def pointCircles (debug : Bool) (pts : List CPoint) : List Emit :=
  if debug then pointCirclesGo pts else []

/-- `CornerRadiusLineSet.draw`: returns the final point list and the full
emission trace.  With fewer than 3 points only the debug markers are
emitted and the list is returned unchanged. -/
def draw (debug : Bool) (pts : List CPoint) : List CPoint × List Emit :=
  if pts.length < 3 then (pts, pointCircles debug pts)
  else
    ((runFrom debug (pts.length - 2) pts 0 (pts.length - 3)).1,
     pointCircles debug pts ++ (runFrom debug (pts.length - 2) pts 0 (pts.length - 3)).2)

/-- Euclidean distance between two points of the plane. -/
def dist2 (p q : ℝ × ℝ) : ℝ := Real.sqrt ((p.1 - q.1) ^ 2 + (p.2 - q.2) ^ 2)

/-- Classifier for line/arc emissions (the non-debug geometry output). -/
def isLineOrArc : Emit → Bool
  | Emit.line _ _ _ _ => true
  | Emit.arc _ _ _ _ _ _ => true
  | _ => false

/-- Classifier for stroke-style events. -/
def isStroke : Emit → Bool
  | Emit.stroke _ => true
  | _ => false

/-- The stroke style active after replaying a trace, starting from style
`s` (the last `stroke` event wins). -/
def strokeState : ℤ → List Emit → ℤ
  | s, [] => s
  | _, Emit.stroke v :: rest => strokeState v rest
  | s, _ :: rest => strokeState s rest

/-- The sub-trace of drawing events emitted while the active stroke style
is `1` (the non-debug channel), starting from style `s`. -/
def nonDebugEmits : ℤ → List Emit → List Emit
  | _, [] => []
  | _, Emit.stroke v :: rest => nonDebugEmits v rest
  | s, e :: rest =>
    if s = 1 then e :: nonDebugEmits s rest else nonDebugEmits s rest

/-- The `_debug_draw` context manager run on a body that either completes
normally (`bodyOk = true`) or raises (`bodyOk = false`).  A Python
`@contextmanager` without `try/finally` does not resume past `yield` when
the body raises, so the trailing `vsk.stroke(original_stroke)` (with the
hard-coded `original_stroke = 1`) is only emitted on the normal path. -/
def debugDrawRun (debug : Bool) (v : ℤ) (body : List Emit) (bodyOk : Bool) :
    List Emit × Bool :=
  if debug then
    (if bodyOk then ((Emit.stroke v :: body) ++ [Emit.stroke 1], true)
     else (Emit.stroke v :: body, false))
  else (body, bodyOk)

/-- The right-angle window of the spec's concrete scenario:
`A = (0,0)`, `g = (10,0)` with radius `2`, `B = (10,10)`. -/
def wRight : Win := ⟨0, 0, 10, 0, 10, 10, 2⟩

/-- The concrete scenario input `[(0,0,0), (10,0,2), (10,10,0)]`. -/
def pts3 : List CPoint := [(0, 0, 0), (10, 0, 2), (10, 10, 0)]

/-- A four-point chain of right-angle corners used to exercise chaining. -/
def pts4 : List CPoint := [(0, 0, 0), (10, 0, 2), (10, 10, 2), (0, 10, 0)]

/-- Three collinear points: the middle corner is skipped. -/
def colPts : List CPoint := [(0, 0, 0), (1, 0, 1), (2, 0, 0)]

/-- The collinear window read from `colPts` at index `0`. -/
def wCol : Win := ⟨0, 0, 1, 0, 2, 0, 1⟩

/-- A right-angle window whose corner radius is `0`. -/
def wZero : Win := ⟨0, 0, 1, 0, 1, 1, 0⟩

/-- The input list whose first window is `wZero`. -/
def zPts : List CPoint := [(0, 0, 0), (1, 0, 0), (1, 1, 0)]

/-- The slope of the near-straight counterexample window:
`1e-10 + 3.55e-31`, chosen so that the interior angle passes the
`θ ≤ π - 1e-10` check while the bisector length `2·cos(θ/2)` still drops
below `1e-10` (possible since `2·sin(x/2) < x`). -/
def sBad : ℝ := (10 ^ 23 + 355) / 10 ^ 33

/-- The near-straight counterexample window `A = (0,0)`, `g = (1,0)` with
radius `1`, `B = (2, sBad)`. -/
def wBad : Win := ⟨0, 0, 1, 0, 2, sBad, 1⟩

end

/-! ### Basic facts about one window -/

lemma eps_pos : 0 < eps := by norm_num [eps]

lemma neg_one_le_dotc (w : Win) : -1 ≤ dotc w := le_max_left _ _

lemma dotc_le_one (w : Win) : dotc w ≤ 1 :=
  max_le (by norm_num) (min_le_left _ _)

lemma cos_theta_eq (w : Win) : Real.cos (theta w) = dotc w :=
  Real.cos_arccos (neg_one_le_dotc w) (dotc_le_one w)

lemma theta_nonneg (w : Win) : 0 ≤ theta w := Real.arccos_nonneg _

lemma theta_le_pi (w : Win) : theta w ≤ Real.pi := Real.arccos_le_pi _

lemma theta_pos (w : Win) (h1 : eps ≤ theta w) : 0 < theta w :=
  lt_of_lt_of_le eps_pos h1

lemma theta_lt_pi (w : Win) (h2 : theta w ≤ Real.pi - eps) : theta w < Real.pi := by
  have := eps_pos; linarith

lemma half_theta_pos (w : Win) (h1 : eps ≤ theta w) : 0 < theta w / 2 := by
  have := theta_pos w h1; linarith

lemma half_theta_lt (w : Win) (h2 : theta w ≤ Real.pi - eps) :
    theta w / 2 < Real.pi / 2 := by
  have := theta_lt_pi w h2; linarith

lemma sin_half_pos (w : Win) (h1 : eps ≤ theta w) (h2 : theta w ≤ Real.pi - eps) :
    0 < Real.sin (theta w / 2) := by
  refine Real.sin_pos_of_pos_of_lt_pi (half_theta_pos w h1) ?_
  have h := half_theta_lt w h2
  have := Real.pi_pos
  linarith

lemma cos_half_pos (w : Win) (h1 : eps ≤ theta w) (h2 : theta w ≤ Real.pi - eps) :
    0 < Real.cos (theta w / 2) := by
  refine Real.cos_pos_of_mem_Ioo ⟨?_, half_theta_lt w h2⟩
  have := half_theta_pos w h1
  have := Real.pi_pos
  linarith

lemma tan_half_pos (w : Win) (h1 : eps ≤ theta w) (h2 : theta w ≤ Real.pi - eps) :
    0 < Real.tan (theta w / 2) :=
  Real.tan_pos_of_pos_of_lt_pi_div_two (half_theta_pos w h1) (half_theta_lt w h2)

lemma agLen_pos (w : Win) (hA : eps ≤ AgLen w) : 0 < AgLen w :=
  lt_of_lt_of_le eps_pos hA

lemma gBLen_pos (w : Win) (hB : eps ≤ gBLen w) : 0 < gBLen w :=
  lt_of_lt_of_le eps_pos hB

lemma agLen_sq (w : Win) :
    AgLen w ^ 2 = (w.gx - w.Ax) ^ 2 + (w.gy - w.Ay) ^ 2 :=
  Real.sq_sqrt (by positivity)

lemma gBLen_sq (w : Win) :
    gBLen w ^ 2 = (w.Bx - w.gx) ^ 2 + (w.By - w.gy) ^ 2 :=
  Real.sq_sqrt (by positivity)

lemma u_unit (w : Win) (hA : eps ≤ AgLen w) : ux w ^ 2 + uy w ^ 2 = 1 := by
  have hL := agLen_pos w hA
  have hsq := agLen_sq w
  rw [ux, uy]
  field_simp
  linarith

lemma v_unit (w : Win) (hB : eps ≤ gBLen w) : vx w ^ 2 + vy w ^ 2 = 1 := by
  have hL := gBLen_pos w hB
  have hsq := gBLen_sq w
  rw [vx, vy]
  field_simp
  linarith

lemma clamp_id (w : Win) (hA : eps ≤ AgLen w) (hB : eps ≤ gBLen w) :
    ux w * -vx w + uy w * -vy w = dotc w := by
  set r := ux w * -vx w + uy w * -vy w with hr
  have hu := u_unit w hA
  have hv := v_unit w hB
  have hsq : r ^ 2 ≤ 1 := by
    have hlag : (ux w * vx w + uy w * vy w) ^ 2 +
        (ux w * vy w - uy w * vx w) ^ 2 = 1 := by
      have he : (ux w * vx w + uy w * vy w) ^ 2 +
          (ux w * vy w - uy w * vx w) ^ 2 =
          (ux w ^ 2 + uy w ^ 2) * (vx w ^ 2 + vy w ^ 2) := by ring
      rw [he, hu, hv]; norm_num
    have hrel : r ^ 2 = (ux w * vx w + uy w * vy w) ^ 2 := by rw [hr]; ring
    linarith [sq_nonneg (ux w * vy w - uy w * vx w)]
  have h1 : r ≤ 1 := by nlinarith [sq_nonneg (r - 1)]
  have h2 : -1 ≤ r := by nlinarith [sq_nonneg (r + 1)]
  rw [dotc, ← hr, min_eq_right h1, max_eq_right h2]

lemma uv_dot (w : Win) (hA : eps ≤ AgLen w) (hB : eps ≤ gBLen w) :
    ux w * vx w + uy w * vy w = -dotc w := by
  have := clamp_id w hA hB
  linarith [this]

lemma dotc_cos_half (w : Win) :
    dotc w = 2 * Real.cos (theta w / 2) ^ 2 - 1 := by
  have h := Real.cos_two_mul (theta w / 2)
  have h2 : 2 * (theta w / 2) = theta w := by ring
  rw [h2] at h
  rw [← cos_theta_eq w, h]

lemma bis_sq (w : Win) (hA : eps ≤ AgLen w) (hB : eps ≤ gBLen w) :
    bisX w ^ 2 + bisY w ^ 2 = (2 * Real.cos (theta w / 2)) ^ 2 := by
  have hu := u_unit w hA
  have hv := v_unit w hB
  have hd := uv_dot w hA hB
  have hc := dotc_cos_half w
  rw [bisX, bisY]
  nlinarith [hu, hv, hd, hc]

lemma bisLen_eq (w : Win) (hA : eps ≤ AgLen w) (hB : eps ≤ gBLen w)
    (h1 : eps ≤ theta w) (h2 : theta w ≤ Real.pi - eps) :
    bisLen w = 2 * Real.cos (theta w / 2) := by
  rw [bisLen, bis_sq w hA hB]
  exact Real.sqrt_sq (by linarith [cos_half_pos w h1 h2])

lemma tdist_eq (w : Win) (h1 : eps ≤ theta w) (h2 : theta w ≤ Real.pi - eps) :
    tdist w = w.radius * Real.cos (theta w / 2) / Real.sin (theta w / 2) := by
  have hS := sin_half_pos w h1 h2
  have hC := cos_half_pos w h1 h2
  rw [tdist, Real.tan_eq_sin_div_cos]
  field_simp

lemma sc_sq (w : Win) :
    Real.sin (theta w / 2) ^ 2 + Real.cos (theta w / 2) ^ 2 = 1 :=
  Real.sin_sq_add_cos_sq _

/-! ### Distances from the corner and from the center -/

lemma center_fst (w : Win) (hfb : ¬ bisLen w < eps) :
    (center w).1 = w.gx + cdist w * (bisX w / bisLen w) := by
  rw [center, bisUnit, if_neg hfb]

lemma center_snd (w : Win) (hfb : ¬ bisLen w < eps) :
    (center w).2 = w.gy + cdist w * (bisY w / bisLen w) := by
  rw [center, bisUnit, if_neg hfb]

lemma tdist_nonneg (w : Win) (hr : 0 ≤ w.radius) (h1 : eps ≤ theta w)
    (h2 : theta w ≤ Real.pi - eps) : 0 ≤ tdist w :=
  div_nonneg hr (tan_half_pos w h1 h2).le

lemma dist2_tanA_g (w : Win) (hA : eps ≤ AgLen w) (hr : 0 ≤ w.radius)
    (h1 : eps ≤ theta w) (h2 : theta w ≤ Real.pi - eps) :
    dist2 (tanA w) (w.gx, w.gy) = tdist w := by
  have hu := u_unit w hA
  have ht := tdist_nonneg w hr h1 h2
  have hx : (tanA w).1 - (w.gx, w.gy).1 = -(tdist w * ux w) := by
    simp [tanA]
  have hy : (tanA w).2 - (w.gx, w.gy).2 = -(tdist w * uy w) := by
    simp [tanA]
  rw [dist2, hx, hy]
  have hsum : (-(tdist w * ux w)) ^ 2 + (-(tdist w * uy w)) ^ 2 = tdist w ^ 2 := by
    nlinarith [hu]
  rw [hsum]
  exact Real.sqrt_sq ht

lemma dist2_tanB_g (w : Win) (hB : eps ≤ gBLen w) (hr : 0 ≤ w.radius)
    (h1 : eps ≤ theta w) (h2 : theta w ≤ Real.pi - eps) :
    dist2 (tanB w) (w.gx, w.gy) = tdist w := by
  have hv := v_unit w hB
  have ht := tdist_nonneg w hr h1 h2
  have hx : (tanB w).1 - (w.gx, w.gy).1 = tdist w * vx w := by
    simp [tanB]
  have hy : (tanB w).2 - (w.gx, w.gy).2 = tdist w * vy w := by
    simp [tanB]
  rw [dist2, hx, hy]
  have hsum : (tdist w * vx w) ^ 2 + (tdist w * vy w) ^ 2 = tdist w ^ 2 := by
    nlinarith [hv]
  rw [hsum]
  exact Real.sqrt_sq ht

lemma camA_fst (w : Win) (hA : eps ≤ AgLen w) (hB : eps ≤ gBLen w)
    (h1 : eps ≤ theta w) (h2 : theta w ≤ Real.pi - eps)
    (hfb : ¬ bisLen w < eps) :
    (center w).1 - (tanA w).1 =
      w.radius / (2 * Real.cos (theta w / 2) * Real.sin (theta w / 2)) *
        (vx w + (2 * Real.cos (theta w / 2) ^ 2 - 1) * ux w) := by
  have hS := (sin_half_pos w h1 h2).ne'
  have hC := (cos_half_pos w h1 h2).ne'
  rw [center_fst w hfb, show (tanA w).1 = w.gx - tdist w * ux w from rfl,
    bisLen_eq w hA hB h1 h2, tdist_eq w h1 h2, cdist, bisX]
  field_simp
  ring

lemma camA_snd (w : Win) (hA : eps ≤ AgLen w) (hB : eps ≤ gBLen w)
    (h1 : eps ≤ theta w) (h2 : theta w ≤ Real.pi - eps)
    (hfb : ¬ bisLen w < eps) :
    (center w).2 - (tanA w).2 =
      w.radius / (2 * Real.cos (theta w / 2) * Real.sin (theta w / 2)) *
        (vy w + (2 * Real.cos (theta w / 2) ^ 2 - 1) * uy w) := by
  have hS := (sin_half_pos w h1 h2).ne'
  have hC := (cos_half_pos w h1 h2).ne'
  rw [center_snd w hfb, show (tanA w).2 = w.gy - tdist w * uy w from rfl,
    bisLen_eq w hA hB h1 h2, tdist_eq w h1 h2, cdist, bisY]
  field_simp
  ring

lemma camB_fst (w : Win) (hA : eps ≤ AgLen w) (hB : eps ≤ gBLen w)
    (h1 : eps ≤ theta w) (h2 : theta w ≤ Real.pi - eps)
    (hfb : ¬ bisLen w < eps) :
    (center w).1 - (tanB w).1 =
      w.radius / (2 * Real.cos (theta w / 2) * Real.sin (theta w / 2)) *
        (-(ux w) - (2 * Real.cos (theta w / 2) ^ 2 - 1) * vx w) := by
  have hS := (sin_half_pos w h1 h2).ne'
  have hC := (cos_half_pos w h1 h2).ne'
  rw [center_fst w hfb, show (tanB w).1 = w.gx + tdist w * vx w from rfl,
    bisLen_eq w hA hB h1 h2, tdist_eq w h1 h2, cdist, bisX]
  field_simp
  ring

lemma camB_snd (w : Win) (hA : eps ≤ AgLen w) (hB : eps ≤ gBLen w)
    (h1 : eps ≤ theta w) (h2 : theta w ≤ Real.pi - eps)
    (hfb : ¬ bisLen w < eps) :
    (center w).2 - (tanB w).2 =
      w.radius / (2 * Real.cos (theta w / 2) * Real.sin (theta w / 2)) *
        (-(uy w) - (2 * Real.cos (theta w / 2) ^ 2 - 1) * vy w) := by
  have hS := (sin_half_pos w h1 h2).ne'
  have hC := (cos_half_pos w h1 h2).ne'
  rw [center_snd w hfb, show (tanB w).2 = w.gy + tdist w * vy w from rfl,
    bisLen_eq w hA hB h1 h2, tdist_eq w h1 h2, cdist, bisY]
  field_simp
  ring

lemma dist_sq_center_tanA (w : Win) (hA : eps ≤ AgLen w) (hB : eps ≤ gBLen w)
    (h1 : eps ≤ theta w) (h2 : theta w ≤ Real.pi - eps)
    (hfb : ¬ bisLen w < eps) :
    ((center w).1 - (tanA w).1) ^ 2 + ((center w).2 - (tanA w).2) ^ 2 =
      w.radius ^ 2 := by
  have hS := sin_half_pos w h1 h2
  have hC := cos_half_pos w h1 h2
  have hfst := camA_fst w hA hB h1 h2 hfb
  have hsnd := camA_snd w hA hB h1 h2 hfb
  have hu := u_unit w hA
  have hv := v_unit w hB
  have hd := uv_dot w hA hB
  have hc := dotc_cos_half w
  have hsc := sc_sq w
  have hk : (vx w + (2 * Real.cos (theta w / 2) ^ 2 - 1) * ux w) ^ 2 +
      (vy w + (2 * Real.cos (theta w / 2) ^ 2 - 1) * uy w) ^ 2 =
      4 * Real.cos (theta w / 2) ^ 2 * Real.sin (theta w / 2) ^ 2 := by
    linear_combination (2 * Real.cos (theta w / 2) ^ 2 - 1) ^ 2 * hu + hv +
      2 * (2 * Real.cos (theta w / 2) ^ 2 - 1) * hd -
      2 * (2 * Real.cos (theta w / 2) ^ 2 - 1) * hc -
      4 * Real.cos (theta w / 2) ^ 2 * hsc
  rw [hfst, hsnd]
  have hcol : (w.radius / (2 * Real.cos (theta w / 2) * Real.sin (theta w / 2)) *
        (vx w + (2 * Real.cos (theta w / 2) ^ 2 - 1) * ux w)) ^ 2 +
      (w.radius / (2 * Real.cos (theta w / 2) * Real.sin (theta w / 2)) *
        (vy w + (2 * Real.cos (theta w / 2) ^ 2 - 1) * uy w)) ^ 2 =
      (w.radius / (2 * Real.cos (theta w / 2) * Real.sin (theta w / 2))) ^ 2 *
        ((vx w + (2 * Real.cos (theta w / 2) ^ 2 - 1) * ux w) ^ 2 +
          (vy w + (2 * Real.cos (theta w / 2) ^ 2 - 1) * uy w) ^ 2) := by
    ring
  rw [hcol, hk]
  have hne : (2 * Real.cos (theta w / 2) * Real.sin (theta w / 2)) ≠ 0 := by
    positivity
  rw [div_pow, div_mul_eq_mul_div, div_eq_iff (pow_ne_zero 2 hne)]
  ring

lemma dist_sq_center_tanB (w : Win) (hA : eps ≤ AgLen w) (hB : eps ≤ gBLen w)
    (h1 : eps ≤ theta w) (h2 : theta w ≤ Real.pi - eps)
    (hfb : ¬ bisLen w < eps) :
    ((center w).1 - (tanB w).1) ^ 2 + ((center w).2 - (tanB w).2) ^ 2 =
      w.radius ^ 2 := by
  have hS := sin_half_pos w h1 h2
  have hC := cos_half_pos w h1 h2
  have hfst := camB_fst w hA hB h1 h2 hfb
  have hsnd := camB_snd w hA hB h1 h2 hfb
  have hu := u_unit w hA
  have hv := v_unit w hB
  have hd := uv_dot w hA hB
  have hc := dotc_cos_half w
  have hsc := sc_sq w
  have hk : (-(ux w) - (2 * Real.cos (theta w / 2) ^ 2 - 1) * vx w) ^ 2 +
      (-(uy w) - (2 * Real.cos (theta w / 2) ^ 2 - 1) * vy w) ^ 2 =
      4 * Real.cos (theta w / 2) ^ 2 * Real.sin (theta w / 2) ^ 2 := by
    linear_combination hu + (2 * Real.cos (theta w / 2) ^ 2 - 1) ^ 2 * hv +
      2 * (2 * Real.cos (theta w / 2) ^ 2 - 1) * hd -
      2 * (2 * Real.cos (theta w / 2) ^ 2 - 1) * hc -
      4 * Real.cos (theta w / 2) ^ 2 * hsc
  rw [hfst, hsnd]
  have hcol : (w.radius / (2 * Real.cos (theta w / 2) * Real.sin (theta w / 2)) *
        (-(ux w) - (2 * Real.cos (theta w / 2) ^ 2 - 1) * vx w)) ^ 2 +
      (w.radius / (2 * Real.cos (theta w / 2) * Real.sin (theta w / 2)) *
        (-(uy w) - (2 * Real.cos (theta w / 2) ^ 2 - 1) * vy w)) ^ 2 =
      (w.radius / (2 * Real.cos (theta w / 2) * Real.sin (theta w / 2))) ^ 2 *
        ((-(ux w) - (2 * Real.cos (theta w / 2) ^ 2 - 1) * vx w) ^ 2 +
          (-(uy w) - (2 * Real.cos (theta w / 2) ^ 2 - 1) * vy w) ^ 2) := by
    ring
  rw [hcol, hk]
  have hne : (2 * Real.cos (theta w / 2) * Real.sin (theta w / 2)) ≠ 0 := by
    positivity
  rw [div_pow, div_mul_eq_mul_div, div_eq_iff (pow_ne_zero 2 hne)]
  ring

lemma dist2_center_tanA (w : Win) (hA : eps ≤ AgLen w) (hB : eps ≤ gBLen w)
    (h1 : eps ≤ theta w) (h2 : theta w ≤ Real.pi - eps)
    (hr : 0 ≤ w.radius) (hfb : ¬ bisLen w < eps) :
    dist2 (center w) (tanA w) = w.radius := by
  rw [dist2, dist_sq_center_tanA w hA hB h1 h2 hfb]
  exact Real.sqrt_sq hr

lemma dist2_center_tanB (w : Win) (hA : eps ≤ AgLen w) (hB : eps ≤ gBLen w)
    (h1 : eps ≤ theta w) (h2 : theta w ≤ Real.pi - eps)
    (hr : 0 ≤ w.radius) (hfb : ¬ bisLen w < eps) :
    dist2 (center w) (tanB w) = w.radius := by
  rw [dist2, dist_sq_center_tanB w hA hB h1 h2 hfb]
  exact Real.sqrt_sq hr

/-! ### Evaluation of the right-angle window `wRight` -/

lemma wRight_AgLen : AgLen wRight = 10 := by
  have h : (wRight.gx - wRight.Ax) ^ 2 + (wRight.gy - wRight.Ay) ^ 2 =
      (10 : ℝ) ^ 2 := by norm_num [wRight]
  rw [AgLen, h, Real.sqrt_sq]
  norm_num

lemma wRight_gBLen : gBLen wRight = 10 := by
  have h : (wRight.Bx - wRight.gx) ^ 2 + (wRight.By - wRight.gy) ^ 2 =
      (10 : ℝ) ^ 2 := by norm_num [wRight]
  rw [gBLen, h, Real.sqrt_sq]
  norm_num

lemma wRight_not_lenSkip : ¬ lenSkip wRight := by
  rw [lenSkip, wRight_AgLen, wRight_gBLen]
  norm_num [eps]

lemma wRight_ux : ux wRight = 1 := by
  rw [ux, wRight_AgLen]; norm_num [wRight]

lemma wRight_uy : uy wRight = 0 := by
  rw [uy, wRight_AgLen]; norm_num [wRight]

lemma wRight_vx : vx wRight = 0 := by
  rw [vx, wRight_gBLen]; norm_num [wRight]

lemma wRight_vy : vy wRight = 1 := by
  rw [vy, wRight_gBLen]; norm_num [wRight]

lemma wRight_dotc : dotc wRight = 0 := by
  rw [dotc, wRight_ux, wRight_uy, wRight_vx, wRight_vy]
  norm_num

lemma wRight_theta : theta wRight = Real.pi / 2 := by
  rw [theta, wRight_dotc, Real.arccos_zero]

lemma wRight_theta_lb : eps ≤ theta wRight := by
  rw [wRight_theta]
  have := Real.pi_gt_three
  rw [eps]
  nlinarith

lemma wRight_theta_ub : theta wRight ≤ Real.pi - eps := by
  rw [wRight_theta]
  have := Real.pi_gt_three
  rw [eps]
  nlinarith

lemma wRight_not_angSkip : ¬ angSkip wRight := by
  rw [angSkip]
  push_neg
  exact ⟨wRight_theta_lb, wRight_theta_ub⟩

lemma wRight_half_theta : theta wRight / 2 = Real.pi / 4 := by
  rw [wRight_theta]; ring

lemma wRight_tdist : tdist wRight = 2 := by
  rw [tdist, wRight_half_theta, Real.tan_pi_div_four]
  norm_num [wRight]

lemma wRight_tanA : tanA wRight = (8, 0) := by
  rw [tanA, wRight_tdist, wRight_ux, wRight_uy]
  norm_num [wRight]

lemma wRight_tanB : tanB wRight = (10, 2) := by
  rw [tanB, wRight_tdist, wRight_vx, wRight_vy]
  norm_num [wRight]

lemma wRight_bisX : bisX wRight = -1 := by
  rw [bisX, wRight_ux, wRight_vx]; norm_num

lemma wRight_bisY : bisY wRight = 1 := by
  rw [bisY, wRight_uy, wRight_vy]; norm_num

lemma wRight_bisLen : bisLen wRight = Real.sqrt 2 := by
  rw [bisLen, wRight_bisX, wRight_bisY]
  norm_num

lemma one_le_sqrt_two : (1 : ℝ) ≤ Real.sqrt 2 := by
  rw [show (1 : ℝ) = Real.sqrt 1 by rw [Real.sqrt_one]]
  exact Real.sqrt_le_sqrt (by norm_num)

lemma wRight_not_fb : ¬ bisLen wRight < eps := by
  rw [wRight_bisLen]
  have := one_le_sqrt_two
  rw [eps]
  intro h
  nlinarith

lemma sqrt_two_mul_self : Real.sqrt 2 * Real.sqrt 2 = 2 :=
  Real.mul_self_sqrt (by norm_num)

lemma sqrt_two_ne : Real.sqrt 2 ≠ 0 := by positivity

lemma wRight_cdist : cdist wRight = 2 * Real.sqrt 2 := by
  rw [cdist, wRight_half_theta, Real.sin_pi_div_four,
    show wRight.radius = (2 : ℝ) from rfl]
  rw [div_eq_iff (by positivity : Real.sqrt 2 / 2 ≠ 0)]
  have h : 2 * Real.sqrt 2 * (Real.sqrt 2 / 2) = 2 := by
    calc 2 * Real.sqrt 2 * (Real.sqrt 2 / 2) = Real.sqrt 2 * Real.sqrt 2 := by
          ring
      _ = 2 := sqrt_two_mul_self
  linarith [h]

lemma div_sqrt_two_key (a : ℝ) : 2 * Real.sqrt 2 * (a / Real.sqrt 2) = 2 * a := by
  have h := sqrt_two_mul_self
  have hne := sqrt_two_ne
  field_simp
  linarith [h]

lemma wRight_bisUnit :
    bisUnit wRight = (-1 / Real.sqrt 2, 1 / Real.sqrt 2) := by
  rw [bisUnit, if_neg wRight_not_fb, wRight_bisX, wRight_bisY, wRight_bisLen]

lemma wRight_center : center wRight = (8, 2) := by
  rw [center, wRight_bisUnit, wRight_cdist]
  have h1 : 2 * Real.sqrt 2 * (-1 / Real.sqrt 2) = 2 * (-1) := div_sqrt_two_key (-1)
  have h2 : 2 * Real.sqrt 2 * (1 / Real.sqrt 2) = 2 * 1 := div_sqrt_two_key 1
  refine Prod.ext ?_ ?_
  · show wRight.gx + 2 * Real.sqrt 2 * (-1 / Real.sqrt 2) = 8
    rw [show wRight.gx = (10 : ℝ) from rfl, h1]
    norm_num
  · show wRight.gy + 2 * Real.sqrt 2 * (1 / Real.sqrt 2) = 2
    rw [show wRight.gy = (0 : ℝ) from rfl, h2]
    norm_num

/-! ### atan2 at the axes, and the arc angles of `wRight` -/

lemma atan2_neg_y_zero_x (y : ℝ) (hy : y < 0) : atan2 y 0 = -(Real.pi / 2) := by
  rw [atan2]
  exact Complex.arg_eq_neg_pi_div_two_iff.mpr ⟨rfl, hy⟩

lemma atan2_zero_y_pos_x (x : ℝ) (hx : 0 ≤ x) : atan2 0 x = 0 := by
  rw [atan2]
  exact Complex.arg_eq_zero_iff.mpr ⟨hx, rfl⟩

lemma wRight_startAngle0 : startAngle0 wRight = -(Real.pi / 2) := by
  rw [startAngle0, wRight_tanA, wRight_center]
  norm_num
  exact atan2_neg_y_zero_x (-2) (by norm_num)

lemma wRight_endAngle0 : endAngle0 wRight = 0 := by
  rw [endAngle0, wRight_tanB, wRight_center]
  norm_num
  exact atan2_zero_y_pos_x 2 (by norm_num)

lemma wRight_crossZ : crossZ wRight = 4 := by
  rw [crossZ, wRight_tanA, wRight_tanB, wRight_center]
  norm_num

lemma wRight_startAngle : startAngle wRight = -(Real.pi / 2) := by
  rw [startAngle, wRight_crossZ, if_neg (by norm_num : ¬ (4 : ℝ) < 0)]
  exact wRight_startAngle0

lemma wRight_endAngle1 : endAngle1 wRight = 0 := by
  rw [endAngle1, wRight_crossZ, if_neg (by norm_num : ¬ (4 : ℝ) < 0)]
  exact wRight_endAngle0

lemma wRight_endAngle : endAngle wRight = 0 := by
  rw [endAngle, wRight_endAngle1, wRight_startAngle]
  have hpi := Real.pi_pos
  have h : ¬ |(0 : ℝ) - -(Real.pi / 2)| > Real.pi := by
    rw [sub_neg_eq_add, zero_add, abs_of_nonneg (by linarith)]
    linarith
  rw [if_neg h]

/-! ### Rewrite lemmas for `drawStep` -/

lemma drawStep_skip (debug : Bool) (pts : List CPoint) (i lastIdx : ℕ)
    (h : lenSkip (winAt pts i) ∨ angSkip (winAt pts i)) :
    drawStep debug pts i lastIdx =
      (pts, if debug then dbgPre (winAt pts i) else []) := by
  unfold drawStep
  rcases h with h | h
  · rw [if_pos h]
  · by_cases hl : lenSkip (winAt pts i)
    · rw [if_pos hl]
    · rw [if_neg hl, if_pos h]

lemma drawStep_pass (debug : Bool) (pts : List CPoint) (i lastIdx : ℕ)
    (h1 : ¬ lenSkip (winAt pts i)) (h2 : ¬ angSkip (winAt pts i)) :
    drawStep debug pts i lastIdx =
      ((if 1 < pts.length then
          pts.set (i + 1) ((tanB (winAt pts i)).1, (tanB (winAt pts i)).2,
            (pts.getD (i + 1) (0, 0, 0)).2.2)
        else pts),
       (if debug then dbgPre (winAt pts i) else []) ++
         (if debug then dbgMid (winAt pts i) else []) ++
         coreEmits (winAt pts i) (i == lastIdx)) := by
  unfold drawStep
  rw [if_neg h1, if_neg h2]

/-! ### The full run on the concrete scenario `pts3` -/

lemma winAt_pts3 : winAt pts3 0 = wRight := rfl

lemma drawStep_pts3 :
    drawStep false pts3 0 0 =
      ([(0, 0, 0), (10, 2, 2), (10, 10, 0)],
       [Emit.line 0 0 8 0,
        Emit.arc 8 2 4 (-4) (-(Real.pi / 2)) 0,
        Emit.line 10 2 10 10]) := by
  rw [drawStep_pass false pts3 0 0
    (by rw [winAt_pts3]; exact wRight_not_lenSkip)
    (by rw [winAt_pts3]; exact wRight_not_angSkip)]
  rw [winAt_pts3]
  refine Prod.ext ?_ ?_
  · show (if 1 < pts3.length then
        pts3.set 1 ((tanB wRight).1, (tanB wRight).2, (pts3.getD 1 (0, 0, 0)).2.2)
      else pts3) = [(0, 0, 0), (10, 2, 2), (10, 10, 0)]
    rw [wRight_tanB]
    simp [pts3]
  · show [] ++ [] ++ coreEmits wRight (0 == 0) =
      [Emit.line 0 0 8 0, Emit.arc 8 2 4 (-4) (-(Real.pi / 2)) 0,
       Emit.line 10 2 10 10]
    rw [List.nil_append, List.nil_append, coreEmits, wRight_tanA, wRight_tanB,
      wRight_center, wRight_startAngle, wRight_endAngle]
    norm_num [wRight]

lemma draw_pts3 :
    draw false pts3 =
      ([(0, 0, 0), (10, 2, 2), (10, 10, 0)],
       [Emit.line 0 0 8 0,
        Emit.arc 8 2 4 (-4) (-(Real.pi / 2)) 0,
        Emit.line 10 2 10 10]) := by
  rw [draw]
  rw [if_neg (by simp [pts3] : ¬ pts3.length < 3)]
  have hlen : pts3.length - 2 = 1 := by simp [pts3]
  have hlast : pts3.length - 3 = 0 := by simp [pts3]
  rw [hlen, hlast]
  rw [show runFrom false 1 pts3 0 0 =
      ((runFrom false 0 (drawStep false pts3 0 0).1 1 0).1,
        (drawStep false pts3 0 0).2 ++
          (runFrom false 0 (drawStep false pts3 0 0).1 1 0).2) from rfl]
  rw [show ∀ pts i lastIdx, runFrom false 0 pts i lastIdx = (pts, []) from
    fun _ _ _ => rfl]
  rw [drawStep_pts3]
  simp [pointCircles]

/-! ### Claim theorems: C1, C2, C6 -/

/-- C1 (amended): for any window with both segment lengths at least `1e-10`,
interior angle `θ` outside the `1e-10` skip bands, radius `r > 0`, tangent
distance `t = r / tan(θ/2)` below both segment lengths, and — the amendment
forced by the counterexample — bisector length at least `1e-10` (so the
perpendicular fallback is not taken), the tangent points `a` and `b` are
each exactly distance `r / tan(θ/2)` from the corner `g` along their
segments, and the computed center is exactly distance `r` from both. -/
theorem C1_tangent_points_and_center (w : Win)
    (hA : eps ≤ AgLen w) (hB : eps ≤ gBLen w)
    (h1 : eps ≤ theta w) (h2 : theta w ≤ Real.pi - eps)
    (hr : 0 < w.radius)
    (ht : tdist w < min (AgLen w) (gBLen w))
    (hfb : eps ≤ bisLen w) :
    dist2 (tanA w) (w.gx, w.gy) = w.radius / Real.tan (theta w / 2) ∧
    dist2 (tanB w) (w.gx, w.gy) = w.radius / Real.tan (theta w / 2) ∧
    dist2 (center w) (tanA w) = w.radius ∧
    dist2 (center w) (tanB w) = w.radius := by
  have hfb' : ¬ bisLen w < eps := not_lt.mpr hfb
  exact ⟨by rw [dist2_tanA_g w hA hr.le h1 h2, tdist],
    by rw [dist2_tanB_g w hB hr.le h1 h2, tdist],
    dist2_center_tanA w hA hB h1 h2 hr.le hfb',
    dist2_center_tanB w hA hB h1 h2 hr.le hfb'⟩

/-- Witness for C1 at the right-angle window of the concrete scenario. -/
theorem C1_witness :
    (eps ≤ AgLen wRight ∧ eps ≤ gBLen wRight ∧ eps ≤ theta wRight ∧
      theta wRight ≤ Real.pi - eps ∧ 0 < wRight.radius ∧
      tdist wRight < min (AgLen wRight) (gBLen wRight) ∧
      eps ≤ bisLen wRight) ∧
    (dist2 (tanA wRight) (wRight.gx, wRight.gy) =
        wRight.radius / Real.tan (theta wRight / 2) ∧
      dist2 (tanB wRight) (wRight.gx, wRight.gy) =
        wRight.radius / Real.tan (theta wRight / 2) ∧
      dist2 (center wRight) (tanA wRight) = wRight.radius ∧
      dist2 (center wRight) (tanB wRight) = wRight.radius) := by
  have hA : eps ≤ AgLen wRight := by rw [wRight_AgLen, eps]; norm_num
  have hB : eps ≤ gBLen wRight := by rw [wRight_gBLen, eps]; norm_num
  have hr : (0 : ℝ) < wRight.radius := by norm_num [wRight]
  have ht : tdist wRight < min (AgLen wRight) (gBLen wRight) := by
    rw [wRight_tdist, wRight_AgLen, wRight_gBLen]; norm_num
  have hfb : eps ≤ bisLen wRight := by
    rw [wRight_bisLen, eps]
    linarith [one_le_sqrt_two]
  exact ⟨⟨hA, hB, wRight_theta_lb, wRight_theta_ub, hr, ht, hfb⟩,
    C1_tangent_points_and_center wRight hA hB wRight_theta_lb wRight_theta_ub
      hr ht hfb⟩

/-- C2 counterexample: on the concrete scenario the computed arc center is
`(8, 2)`, not the `(8, 8)` stated by the claim. -/
theorem C2_center_counterexample :
    center (winAt pts3 0) = (8, 2) ∧
    ((8 : ℝ), (2 : ℝ)) ≠ ((8 : ℝ), (8 : ℝ)) := by
  refine ⟨by rw [winAt_pts3]; exact wRight_center, fun h => ?_⟩
  have h2 := congrArg Prod.snd h
  norm_num at h2

/-- C2 (amended: the 90-degree arc of radius 2 is centered at `(8, 2)`,
not `(8, 8)`): on input `[(0,0,0), (10,0,2), (10,10,0)]` with debug
disabled, `draw` emits exactly a line from `(0,0)` to `(8,0)`, an arc of
diameter parameters `(4, -4)` centered at `(8,2)` from `-π/2` to `0`
(a 90-degree arc), and a final line from `(10,2)` to `(10,10)`; the
tangent distance is `2` and the center distance is `2·√2 ≈ 2.828`. -/
theorem C2_concrete_scenario :
    draw false pts3 =
      ([(0, 0, 0), (10, 2, 2), (10, 10, 0)],
       [Emit.line 0 0 8 0,
        Emit.arc 8 2 4 (-4) (-(Real.pi / 2)) 0,
        Emit.line 10 2 10 10]) ∧
    tdist (winAt pts3 0) = 2 ∧
    center (winAt pts3 0) = (8, 2) ∧
    cdist (winAt pts3 0) = 2 * Real.sqrt 2 ∧
    endAngle (winAt pts3 0) - startAngle (winAt pts3 0) = Real.pi / 2 := by
  refine ⟨draw_pts3, ?_, ?_, ?_, ?_⟩ <;> rw [winAt_pts3]
  · exact wRight_tdist
  · exact wRight_center
  · exact wRight_cdist
  · rw [wRight_endAngle, wRight_startAngle]; ring

/-- C6: for every window that passes the length and angle skip checks, the
interior angle is strictly between `0` and `π`, so `tan(θ/2)` and
`sin(θ/2)` are nonzero; the segment lengths are also nonzero, so none of
the divisions in the tangent-distance and center-distance computations can
fail, for any radius (including `0` and negative radii, which these
denominators do not involve). -/
theorem C6_no_division_failure :
    ∀ w : Win, ¬ lenSkip w → ¬ angSkip w →
      0 < theta w ∧ theta w < Real.pi ∧
      Real.tan (theta w / 2) ≠ 0 ∧ Real.sin (theta w / 2) ≠ 0 ∧
      AgLen w ≠ 0 ∧ gBLen w ≠ 0 := by
  intro w hl ha
  rw [lenSkip] at hl; push_neg at hl
  rw [angSkip] at ha; push_neg at ha
  obtain ⟨hA, hB⟩ := hl
  obtain ⟨h1, h2⟩ := ha
  exact ⟨theta_pos w h1, theta_lt_pi w h2, (tan_half_pos w h1 h2).ne',
    (sin_half_pos w h1 h2).ne', (agLen_pos w hA).ne', (gBLen_pos w hB).ne'⟩

/-- Witness for C6 at the right-angle window. -/
theorem C6_witness :
    (¬ lenSkip wRight ∧ ¬ angSkip wRight) ∧
    (0 < theta wRight ∧ theta wRight < Real.pi ∧
      Real.tan (theta wRight / 2) ≠ 0 ∧ Real.sin (theta wRight / 2) ≠ 0 ∧
      AgLen wRight ≠ 0 ∧ gBLen wRight ≠ 0) :=
  ⟨⟨wRight_not_lenSkip, wRight_not_angSkip⟩,
    C6_no_division_failure wRight wRight_not_lenSkip wRight_not_angSkip⟩

/-! ### The collinear window `wCol` -/

lemma winAt_colPts : winAt colPts 0 = wCol := rfl

lemma wCol_AgLen : AgLen wCol = 1 := by
  have h : (wCol.gx - wCol.Ax) ^ 2 + (wCol.gy - wCol.Ay) ^ 2 = 1 := by
    norm_num [wCol]
  rw [AgLen, h, Real.sqrt_one]

lemma wCol_gBLen : gBLen wCol = 1 := by
  have h : (wCol.Bx - wCol.gx) ^ 2 + (wCol.By - wCol.gy) ^ 2 = 1 := by
    norm_num [wCol]
  rw [gBLen, h, Real.sqrt_one]

lemma wCol_dotc : dotc wCol = -1 := by
  rw [dotc, ux, uy, vx, vy, wCol_AgLen, wCol_gBLen]
  norm_num [wCol]

lemma wCol_theta : theta wCol = Real.pi := by
  rw [theta, wCol_dotc, Real.arccos_neg_one]

lemma wCol_angSkip : angSkip wCol :=
  Or.inr (by rw [wCol_theta]; linarith [eps_pos])

/-! ### Claim theorems: C4, C5 -/

/-- C4: on a non-skipped window `i`, `drawStep` overwrites `points[i+1]`
with the outgoing tangent point `b` while keeping that point's original
radius, and consequently the next window's `A` point is exactly `b` — the
chaining invariant (stated for every window index, so it holds transitively
across all windows of a 4-or-more point sequence). -/
theorem C4_chaining :
    ∀ (debug : Bool) (pts : List CPoint) (i lastIdx : ℕ),
      i + 2 < pts.length →
      ¬ lenSkip (winAt pts i) → ¬ angSkip (winAt pts i) →
      (drawStep debug pts i lastIdx).1 =
        pts.set (i + 1) ((tanB (winAt pts i)).1, (tanB (winAt pts i)).2,
          (pts.getD (i + 1) (0, 0, 0)).2.2) ∧
      (winAt (drawStep debug pts i lastIdx).1 (i + 1)).Ax =
        (tanB (winAt pts i)).1 ∧
      (winAt (drawStep debug pts i lastIdx).1 (i + 1)).Ay =
        (tanB (winAt pts i)).2 := by
  intro debug pts i lastIdx hlen h1 h2
  have hl : 1 < pts.length := by omega
  have hstep : (drawStep debug pts i lastIdx).1 =
      pts.set (i + 1) ((tanB (winAt pts i)).1, (tanB (winAt pts i)).2,
        (pts.getD (i + 1) (0, 0, 0)).2.2) := by
    rw [drawStep_pass debug pts i lastIdx h1 h2]
    show (if 1 < pts.length then _ else pts) = _
    rw [if_pos hl]
  have hget : ((pts.set (i + 1) ((tanB (winAt pts i)).1, (tanB (winAt pts i)).2,
      (pts.getD (i + 1) (0, 0, 0)).2.2)).getD (i + 1) (0, 0, 0)) =
      ((tanB (winAt pts i)).1, (tanB (winAt pts i)).2,
        (pts.getD (i + 1) (0, 0, 0)).2.2) := by
    rw [List.getD_eq_getElem?_getD,
      List.getElem?_set_eq_of_lt _ (by omega : i + 1 < pts.length),
      Option.getD_some]
  refine ⟨hstep, ?_, ?_⟩
  · show ((drawStep debug pts i lastIdx).1.getD (i + 1) (0, 0, 0)).1 = _
    rw [hstep, hget]
  · show ((drawStep debug pts i lastIdx).1.getD (i + 1) (0, 0, 0)).2.1 = _
    rw [hstep, hget]

/-- Witness for C4: on the 4-point chain `pts4`, window 0 overwrites the
shared middle point with the tangent point `(10, 2)` and window 1 reads it
back as its `A` point. -/
theorem C4_witness :
    (0 + 2 < pts4.length ∧ ¬ lenSkip (winAt pts4 0) ∧
      ¬ angSkip (winAt pts4 0)) ∧
    ((drawStep false pts4 0 1).1 =
        pts4.set 1 ((tanB (winAt pts4 0)).1, (tanB (winAt pts4 0)).2,
          (pts4.getD 1 (0, 0, 0)).2.2) ∧
      (winAt (drawStep false pts4 0 1).1 1).Ax = (tanB (winAt pts4 0)).1 ∧
      (winAt (drawStep false pts4 0 1).1 1).Ay = (tanB (winAt pts4 0)).2) := by
  have hwin : winAt pts4 0 = wRight := rfl
  have hlen : 0 + 2 < pts4.length := by simp [pts4]
  have h1 : ¬ lenSkip (winAt pts4 0) := by
    rw [hwin]; exact wRight_not_lenSkip
  have h2 : ¬ angSkip (winAt pts4 0) := by
    rw [hwin]; exact wRight_not_angSkip
  exact ⟨⟨hlen, h1, h2⟩, C4_chaining false pts4 0 1 hlen h1 h2⟩

/-- No line or arc occurs among the debug point markers. -/
lemma pointCirclesGo_no_line_arc :
    ∀ pts : List CPoint, ∀ e ∈ pointCirclesGo pts, isLineOrArc e = false := by
  intro pts
  induction pts with
  | nil => intro e he; simp [pointCirclesGo] at he
  | cons p rest ih =>
    intro e he
    have hshape : pointCirclesGo (p :: rest) =
        Emit.stroke 2 :: Emit.circle p.1 p.2.1 (1 / 10) :: Emit.stroke 1 ::
          pointCirclesGo rest := by
      rw [pointCirclesGo, debugWrap]
      simp
    rw [hshape] at he
    rcases List.mem_cons.mp he with rfl | he
    · rfl
    rcases List.mem_cons.mp he with rfl | he
    · rfl
    rcases List.mem_cons.mp he with rfl | he
    · rfl
    exact ih e he

/-- C5: degenerate inputs degrade gracefully: with fewer than 3 points
`draw` emits no lines or arcs at all, and a window whose segments are
shorter than `1e-10` or whose interior angle is inside a skip band leaves
the point list untouched and (debug disabled) emits nothing, the loop
simply proceeding to the next window. -/
theorem C5_degenerate :
    (∀ (debug : Bool) (pts : List CPoint), pts.length < 3 →
        ∀ e ∈ (draw debug pts).2, isLineOrArc e = false) ∧
    (∀ (debug : Bool) (pts : List CPoint) (i lastIdx : ℕ),
        lenSkip (winAt pts i) ∨ angSkip (winAt pts i) →
        (drawStep debug pts i lastIdx).1 = pts ∧
          (drawStep false pts i lastIdx).2 = []) := by
  constructor
  · intro debug pts h e he
    rw [draw, if_pos h] at he
    cases debug with
    | false => simp [pointCircles] at he
    | true =>
      rw [pointCircles, if_pos rfl] at he
      exact pointCirclesGo_no_line_arc pts e he
  · intro debug pts i lastIdx h
    rw [drawStep_skip debug pts i lastIdx h, drawStep_skip false pts i lastIdx h]
    exact ⟨rfl, by rw [if_neg (by simp : ¬ false = true)]⟩

/-- Witness for C5: a one-point list produces no lines or arcs, and the
collinear window of `colPts` is skipped without touching the list. -/
theorem C5_witness :
    (([((0 : ℝ), (0 : ℝ), (0 : ℝ))] : List CPoint).length < 3 ∧
      (angSkip (winAt colPts 0) ∨ lenSkip (winAt colPts 0))) ∧
    ((∀ e ∈ (draw true [((0 : ℝ), (0 : ℝ), (0 : ℝ))]).2,
        isLineOrArc e = false) ∧
      (drawStep true colPts 0 0).1 = colPts ∧
      (drawStep false colPts 0 0).2 = []) := by
  have hlen : ([((0 : ℝ), (0 : ℝ), (0 : ℝ))] : List CPoint).length < 3 := by
    simp
  have hskip : lenSkip (winAt colPts 0) ∨ angSkip (winAt colPts 0) :=
    Or.inr (by rw [winAt_colPts]; exact wCol_angSkip)
  refine ⟨⟨hlen, hskip.symm⟩, ?_, ?_, ?_⟩
  · exact C5_degenerate.1 true [((0 : ℝ), (0 : ℝ), (0 : ℝ))] hlen
  · exact (C5_degenerate.2 true colPts 0 0 hskip).1
  · exact (C5_degenerate.2 false colPts 0 0 hskip).2

/-! ### Arc angle bounds (C3) -/

lemma startAngle0_mem (w : Win) :
    startAngle0 w ∈ Set.Ioc (-Real.pi) Real.pi := by
  rw [startAngle0, atan2]
  exact Complex.arg_mem_Ioc _

lemma endAngle0_mem (w : Win) :
    endAngle0 w ∈ Set.Ioc (-Real.pi) Real.pi := by
  rw [endAngle0, atan2]
  exact Complex.arg_mem_Ioc _

lemma startAngle_mem (w : Win) :
    startAngle w ∈ Set.Ioc (-Real.pi) Real.pi := by
  rw [startAngle]
  by_cases h : crossZ w < 0
  · rw [if_pos h]; exact endAngle0_mem w
  · rw [if_neg h]; exact startAngle0_mem w

lemma endAngle1_mem (w : Win) :
    endAngle1 w ∈ Set.Ioc (-Real.pi) Real.pi := by
  rw [endAngle1]
  by_cases h : crossZ w < 0
  · rw [if_pos h]; exact startAngle0_mem w
  · rw [if_neg h]; exact endAngle0_mem w

lemma endAngle_abs_le (w : Win) :
    |endAngle w - startAngle w| ≤ Real.pi := by
  obtain ⟨hs1, hs2⟩ := startAngle_mem w
  obtain ⟨he1, he2⟩ := endAngle1_mem w
  rw [endAngle]
  by_cases h : |endAngle1 w - startAngle w| > Real.pi
  · rw [if_pos h]
    by_cases h2 : endAngle1 w > startAngle w
    · rw [if_pos h2]
      have habs : endAngle1 w - startAngle w > Real.pi := by
        rwa [abs_of_pos (by linarith)] at h
      rw [abs_le]
      constructor <;> linarith
    · rw [if_neg h2]
      push_neg at h2
      have habs : startAngle w - endAngle1 w > Real.pi := by
        rwa [abs_of_nonpos (by linarith), neg_sub] at h
      rw [abs_le]
      constructor <;> linarith
  · rw [if_neg h]
    push_neg at h
    exact h

lemma tdist_pos (w : Win) (hr : 0 < w.radius) (h1 : eps ≤ theta w)
    (h2 : theta w ≤ Real.pi - eps) : 0 < tdist w :=
  div_pos hr (tan_half_pos w h1 h2)

lemma tdist_ne_zero (w : Win) (hr : w.radius ≠ 0) (h1 : eps ≤ theta w)
    (h2 : theta w ≤ Real.pi - eps) : tdist w ≠ 0 :=
  div_ne_zero hr (tan_half_pos w h1 h2).ne'

lemma abs_ca (w : Win) (hA : eps ≤ AgLen w) (hB : eps ≤ gBLen w)
    (h1 : eps ≤ theta w) (h2 : theta w ≤ Real.pi - eps)
    (hfb : ¬ bisLen w < eps) :
    Complex.abs ⟨(tanA w).1 - (center w).1, (tanA w).2 - (center w).2⟩ =
      |w.radius| := by
  rw [Complex.abs_apply, Complex.normSq_mk]
  have h := dist_sq_center_tanA w hA hB h1 h2 hfb
  have heq : ((tanA w).1 - (center w).1) * ((tanA w).1 - (center w).1) +
      ((tanA w).2 - (center w).2) * ((tanA w).2 - (center w).2) =
      w.radius ^ 2 := by linear_combination h
  rw [heq]
  exact Real.sqrt_sq_eq_abs _

lemma abs_cb (w : Win) (hA : eps ≤ AgLen w) (hB : eps ≤ gBLen w)
    (h1 : eps ≤ theta w) (h2 : theta w ≤ Real.pi - eps)
    (hfb : ¬ bisLen w < eps) :
    Complex.abs ⟨(tanB w).1 - (center w).1, (tanB w).2 - (center w).2⟩ =
      |w.radius| := by
  rw [Complex.abs_apply, Complex.normSq_mk]
  have h := dist_sq_center_tanB w hA hB h1 h2 hfb
  have heq : ((tanB w).1 - (center w).1) * ((tanB w).1 - (center w).1) +
      ((tanB w).2 - (center w).2) * ((tanB w).2 - (center w).2) =
      w.radius ^ 2 := by linear_combination h
  rw [heq]
  exact Real.sqrt_sq_eq_abs _

lemma tanA_ne_tanB (w : Win) (hA : eps ≤ AgLen w) (hB : eps ≤ gBLen w)
    (h1 : eps ≤ theta w) (h2 : theta w ≤ Real.pi - eps) (hr : w.radius ≠ 0) :
    ¬ ((tanA w).1 = (tanB w).1 ∧ (tanA w).2 = (tanB w).2) := by
  rintro ⟨hx, hy⟩
  have ht := tdist_ne_zero w hr h1 h2
  have hx' : tdist w * (ux w + vx w) = 0 := by
    have : w.gx - tdist w * ux w = w.gx + tdist w * vx w := hx
    linarith
  have hy' : tdist w * (uy w + vy w) = 0 := by
    have : w.gy - tdist w * uy w = w.gy + tdist w * vy w := hy
    linarith
  have hux : ux w = -vx w := by
    have := mul_eq_zero.mp hx'
    rcases this with h | h
    · exact absurd h ht
    · linarith
  have huy : uy w = -vy w := by
    have := mul_eq_zero.mp hy'
    rcases this with h | h
    · exact absurd h ht
    · linarith
  have hraw : ux w * -vx w + uy w * -vy w = 1 := by
    rw [hux, huy]
    have := u_unit w hA
    rw [hux, huy] at this
    nlinarith [this]
  have hdot : dotc w = 1 := by rw [← clamp_id w hA hB, hraw]
  have : theta w = 0 := by rw [theta, hdot, Real.arccos_one]
  rw [this] at h1
  exact absurd h1 (not_le.mpr eps_pos)

lemma start0_ne_end0 (w : Win) (hA : eps ≤ AgLen w) (hB : eps ≤ gBLen w)
    (h1 : eps ≤ theta w) (h2 : theta w ≤ Real.pi - eps)
    (hfb : ¬ bisLen w < eps) (hr : w.radius ≠ 0) :
    startAngle0 w ≠ endAngle0 w := by
  intro heq
  have habs1 := abs_ca w hA hB h1 h2 hfb
  have habs2 := abs_cb w hA hB h1 h2 hfb
  have harg : Complex.arg ⟨(tanA w).1 - (center w).1,
      (tanA w).2 - (center w).2⟩ =
      Complex.arg ⟨(tanB w).1 - (center w).1, (tanB w).2 - (center w).2⟩ :=
    heq
  have hz : (⟨(tanA w).1 - (center w).1, (tanA w).2 - (center w).2⟩ : ℂ) =
      ⟨(tanB w).1 - (center w).1, (tanB w).2 - (center w).2⟩ := by
    have e1 := Complex.abs_mul_exp_arg_mul_I
      (⟨(tanA w).1 - (center w).1, (tanA w).2 - (center w).2⟩ : ℂ)
    have e2 := Complex.abs_mul_exp_arg_mul_I
      (⟨(tanB w).1 - (center w).1, (tanB w).2 - (center w).2⟩ : ℂ)
    rw [← e1, ← e2, habs1, habs2, harg]
  have hre := congrArg Complex.re hz
  have him := congrArg Complex.im hz
  simp only [] at hre him
  refine tanA_ne_tanB w hA hB h1 h2 hr ⟨?_, ?_⟩
  · have : (tanA w).1 - (center w).1 = (tanB w).1 - (center w).1 := hre
    linarith
  · have : (tanA w).2 - (center w).2 = (tanB w).2 - (center w).2 := him
    linarith

lemma arg_ne_of_opposite_sign {x1 y1 x2 y2 p q : ℝ}
    (h1 : x1 * p + y1 * q < 0) (h2 : 0 < x2 * p + y2 * q) :
    Complex.arg ⟨x1, y1⟩ ≠ Complex.arg ⟨x2, y2⟩ := by
  intro heq
  have hz1_ne : (⟨x1, y1⟩ : ℂ) ≠ 0 := by
    intro h0
    rw [Complex.ext_iff] at h0
    obtain ⟨hx, hy⟩ := h0
    simp only [Complex.zero_re, Complex.zero_im] at hx hy
    rw [hx, hy] at h1
    linarith
  have hz2_ne : (⟨x2, y2⟩ : ℂ) ≠ 0 := by
    intro h0
    rw [Complex.ext_iff] at h0
    obtain ⟨hx, hy⟩ := h0
    simp only [Complex.zero_re, Complex.zero_im] at hx hy
    rw [hx, hy] at h2
    linarith
  have e1 := Complex.abs_mul_exp_arg_mul_I (⟨x1, y1⟩ : ℂ)
  have e2 := Complex.abs_mul_exp_arg_mul_I (⟨x2, y2⟩ : ℂ)
  have hscale : (Complex.abs ⟨x2, y2⟩ : ℂ) * (⟨x1, y1⟩ : ℂ) =
      (Complex.abs ⟨x1, y1⟩ : ℂ) * (⟨x2, y2⟩ : ℂ) := by
    calc (Complex.abs ⟨x2, y2⟩ : ℂ) * (⟨x1, y1⟩ : ℂ)
        = (Complex.abs ⟨x2, y2⟩ : ℂ) * ((Complex.abs ⟨x1, y1⟩ : ℂ) *
            Complex.exp (Complex.arg (⟨x1, y1⟩ : ℂ) * Complex.I)) := by
          rw [e1]
      _ = (Complex.abs ⟨x1, y1⟩ : ℂ) * ((Complex.abs ⟨x2, y2⟩ : ℂ) *
            Complex.exp (Complex.arg (⟨x2, y2⟩ : ℂ) * Complex.I)) := by
          rw [heq]; ring
      _ = (Complex.abs ⟨x1, y1⟩ : ℂ) * (⟨x2, y2⟩ : ℂ) := by rw [e2]
  have hre := congrArg Complex.re hscale
  have him := congrArg Complex.im hscale
  have hre' : Complex.abs ⟨x2, y2⟩ * x1 = Complex.abs ⟨x1, y1⟩ * x2 := by
    simpa [Complex.mul_re] using hre
  have him' : Complex.abs ⟨x2, y2⟩ * y1 = Complex.abs ⟨x1, y1⟩ * y2 := by
    simpa [Complex.mul_im] using him
  have ha1_pos : 0 < Complex.abs ⟨x1, y1⟩ := Complex.abs.pos hz1_ne
  have ha2_pos : 0 < Complex.abs ⟨x2, y2⟩ := Complex.abs.pos hz2_ne
  have hcomb : Complex.abs ⟨x2, y2⟩ * (x1 * p + y1 * q) =
      Complex.abs ⟨x1, y1⟩ * (x2 * p + y2 * q) := by
    linear_combination p * hre' + q * him'
  have hL : Complex.abs ⟨x2, y2⟩ * (x1 * p + y1 * q) < 0 :=
    mul_neg_of_pos_of_neg ha2_pos h1
  have hR : 0 < Complex.abs ⟨x1, y1⟩ * (x2 * p + y2 * q) :=
    mul_pos ha1_pos h2
  linarith

lemma start0_ne_end0_fallback (w : Win) (hA : eps ≤ AgLen w)
    (hB : eps ≤ gBLen w) (h1 : eps ≤ theta w) (h2 : theta w ≤ Real.pi - eps)
    (hfb : bisLen w < eps) (hr : w.radius ≠ 0) :
    startAngle0 w ≠ endAngle0 w := by
  have hC := cos_half_pos w h1 h2
  have ht := tdist_ne_zero w hr h1 h2
  have hu := u_unit w hA
  have hbl := bisLen_eq w hA hB h1 h2
  have hcos_small : Real.cos (theta w / 2) < eps / 2 := by
    rw [hbl] at hfb; linarith
  have hcsq : Real.cos (theta w / 2) ^ 2 < (eps / 2) ^ 2 := by
    nlinarith [hC]
  have heps2 : ((eps : ℝ) / 2) ^ 2 < 1 / 2 := by rw [eps]; norm_num
  have hd := uv_dot w hA hB
  have hdc := dotc_cos_half w
  have huv_pos : 0 < ux w * vx w + uy w * vy w := by linarith
  have hcf : (center w).1 = w.gx + cdist w * uy w := by
    rw [center, bisUnit, if_pos hfb]
  have hcs : (center w).2 = w.gy + cdist w * -ux w := by
    rw [center, bisUnit, if_pos hfb]
  have hcau : ((tanA w).1 - (center w).1) * ux w +
      ((tanA w).2 - (center w).2) * uy w = -(tdist w) := by
    rw [hcf, hcs, show (tanA w).1 = w.gx - tdist w * ux w from rfl,
      show (tanA w).2 = w.gy - tdist w * uy w from rfl]
    linear_combination (-(tdist w)) * hu
  have hcbu : ((tanB w).1 - (center w).1) * ux w +
      ((tanB w).2 - (center w).2) * uy w =
      tdist w * (ux w * vx w + uy w * vy w) := by
    rw [hcf, hcs, show (tanB w).1 = w.gx + tdist w * vx w from rfl,
      show (tanB w).2 = w.gy + tdist w * vy w from rfl]
    ring
  rcases ht.lt_or_lt with htneg | htpos
  · -- negative tangent distance: a - c points forward, b - c backward
    have hca_pos : 0 < ((tanA w).1 - (center w).1) * ux w +
        ((tanA w).2 - (center w).2) * uy w := by rw [hcau]; linarith
    have hcb_neg : ((tanB w).1 - (center w).1) * ux w +
        ((tanB w).2 - (center w).2) * uy w < 0 := by
      rw [hcbu]
      exact mul_neg_of_neg_of_pos htneg huv_pos
    exact fun heq =>
      arg_ne_of_opposite_sign hcb_neg hca_pos heq.symm
  · -- positive tangent distance: a - c points backward, b - c forward
    have hca_neg : ((tanA w).1 - (center w).1) * ux w +
        ((tanA w).2 - (center w).2) * uy w < 0 := by rw [hcau]; linarith
    have hcb_pos : 0 < ((tanB w).1 - (center w).1) * ux w +
        ((tanB w).2 - (center w).2) * uy w := by
      rw [hcbu]
      exact mul_pos htpos huv_pos
    exact arg_ne_of_opposite_sign hca_neg hcb_pos

lemma start0_ne_end0_all (w : Win) (hA : eps ≤ AgLen w) (hB : eps ≤ gBLen w)
    (h1 : eps ≤ theta w) (h2 : theta w ≤ Real.pi - eps)
    (hr : w.radius ≠ 0) : startAngle0 w ≠ endAngle0 w := by
  by_cases hfb : bisLen w < eps
  · exact start0_ne_end0_fallback w hA hB h1 h2 hfb hr
  · exact start0_ne_end0 w hA hB h1 h2 hfb hr

lemma startAngle_ne_endAngle1 (w : Win) (hA : eps ≤ AgLen w)
    (hB : eps ≤ gBLen w) (h1 : eps ≤ theta w) (h2 : theta w ≤ Real.pi - eps)
    (hr : w.radius ≠ 0) :
    startAngle w ≠ endAngle1 w := by
  have h := start0_ne_end0_all w hA hB h1 h2 hr
  rw [startAngle, endAngle1]
  by_cases hc : crossZ w < 0
  · rw [if_pos hc, if_pos hc]; exact h.symm
  · rw [if_neg hc, if_neg hc]; exact h

lemma endAngle_sub_ne (w : Win) (hA : eps ≤ AgLen w) (hB : eps ≤ gBLen w)
    (h1 : eps ≤ theta w) (h2 : theta w ≤ Real.pi - eps)
    (hr : w.radius ≠ 0) :
    0 < |endAngle w - startAngle w| := by
  have hne := startAngle_ne_endAngle1 w hA hB h1 h2 hr
  obtain ⟨hs1, hs2⟩ := startAngle_mem w
  obtain ⟨he1, he2⟩ := endAngle1_mem w
  rw [endAngle]
  by_cases h : |endAngle1 w - startAngle w| > Real.pi
  · rw [if_pos h]
    by_cases h2' : endAngle1 w > startAngle w
    · rw [if_pos h2']
      have habs : endAngle1 w - startAngle w > Real.pi := by
        rwa [abs_of_pos (by linarith)] at h
      rw [abs_pos]
      intro hcontra
      have hpi := Real.pi_pos
      linarith
    · rw [if_neg h2']
      push_neg at h2'
      have habs : startAngle w - endAngle1 w > Real.pi := by
        rwa [abs_of_nonpos (by linarith), neg_sub] at h
      rw [abs_pos]
      intro hcontra
      have hpi := Real.pi_pos
      linarith
  · rw [if_neg h]
    rw [abs_pos]
    intro hcontra
    exact hne (by linarith)

/-! ### The zero-radius window `wZero` -/

lemma atan2_zero_zero : atan2 0 0 = 0 := by
  rw [atan2]
  have h : (⟨0, 0⟩ : ℂ) = 0 := by
    apply Complex.ext <;> simp
  rw [h, Complex.arg_zero]

lemma winAt_zPts : winAt zPts 0 = wZero := rfl

lemma wZero_AgLen : AgLen wZero = 1 := by
  have h : (wZero.gx - wZero.Ax) ^ 2 + (wZero.gy - wZero.Ay) ^ 2 = 1 := by
    norm_num [wZero]
  rw [AgLen, h, Real.sqrt_one]

lemma wZero_gBLen : gBLen wZero = 1 := by
  have h : (wZero.Bx - wZero.gx) ^ 2 + (wZero.By - wZero.gy) ^ 2 = 1 := by
    norm_num [wZero]
  rw [gBLen, h, Real.sqrt_one]

lemma wZero_not_lenSkip : ¬ lenSkip wZero := by
  rw [lenSkip, wZero_AgLen, wZero_gBLen]
  norm_num [eps]

lemma wZero_dotc : dotc wZero = 0 := by
  rw [dotc, ux, uy, vx, vy, wZero_AgLen, wZero_gBLen]
  norm_num [wZero]

lemma wZero_theta : theta wZero = Real.pi / 2 := by
  rw [theta, wZero_dotc, Real.arccos_zero]

lemma wZero_not_angSkip : ¬ angSkip wZero := by
  rw [angSkip, wZero_theta]
  push_neg
  have := Real.pi_gt_three
  rw [eps]
  constructor <;> nlinarith

lemma wZero_tdist : tdist wZero = 0 := by
  rw [tdist, show wZero.radius = (0 : ℝ) from rfl, zero_div]

lemma wZero_tanA : tanA wZero = (1, 0) := by
  rw [tanA, wZero_tdist]
  norm_num [wZero]

lemma wZero_tanB : tanB wZero = (1, 0) := by
  rw [tanB, wZero_tdist]
  norm_num [wZero]

lemma wZero_cdist : cdist wZero = 0 := by
  rw [cdist, show wZero.radius = (0 : ℝ) from rfl, zero_div]

lemma wZero_center : center wZero = (1, 0) := by
  rw [center, wZero_cdist]
  norm_num [wZero]

lemma wZero_startAngle0 : startAngle0 wZero = 0 := by
  rw [startAngle0, wZero_tanA, wZero_center]
  norm_num
  exact atan2_zero_zero

lemma wZero_endAngle0 : endAngle0 wZero = 0 := by
  rw [endAngle0, wZero_tanB, wZero_center]
  norm_num
  exact atan2_zero_zero

lemma wZero_crossZ : crossZ wZero = 0 := by
  rw [crossZ, wZero_tanA, wZero_tanB, wZero_center]
  norm_num

lemma wZero_startAngle : startAngle wZero = 0 := by
  rw [startAngle, wZero_crossZ, if_neg (lt_irrefl (0 : ℝ))]
  exact wZero_startAngle0

lemma wZero_endAngle1 : endAngle1 wZero = 0 := by
  rw [endAngle1, wZero_crossZ, if_neg (lt_irrefl (0 : ℝ))]
  exact wZero_endAngle0

lemma wZero_endAngle : endAngle wZero = 0 := by
  rw [endAngle, wZero_endAngle1, wZero_startAngle]
  have h : ¬ |(0 : ℝ) - 0| > Real.pi := by
    rw [sub_zero, abs_zero]
    exact not_lt.mpr Real.pi_pos.le
  rw [if_neg h]

/-! ### Claim theorems: C3 -/

/-- C3 (amended: the subtended angle lies in `(0, π]` for every non-skipped
corner whose stored radius is nonzero; a non-skipped corner with radius `0`
produces a degenerate arc with `end = start` — the counterexample): for
every non-skipped corner, after the cross-product swap and the `±2π`
normalization, `|end - start| ≤ π` always holds, so the reflex arc is never
drawn, and the subtended angle is strictly positive whenever the radius is
nonzero. -/
theorem C3_arc_never_reflex :
    ∀ w : Win, ¬ lenSkip w → ¬ angSkip w →
      |endAngle w - startAngle w| ≤ Real.pi ∧
      (w.radius ≠ 0 → 0 < |endAngle w - startAngle w|) := by
  intro w hl ha
  rw [lenSkip] at hl; push_neg at hl
  rw [angSkip] at ha; push_neg at ha
  exact ⟨endAngle_abs_le w, fun hr =>
    endAngle_sub_ne w hl.1 hl.2 ha.1 ha.2 hr⟩

/-- Witness for C3 at the right-angle window. -/
theorem C3_witness :
    (¬ lenSkip wRight ∧ ¬ angSkip wRight ∧ wRight.radius ≠ 0) ∧
    (|endAngle wRight - startAngle wRight| ≤ Real.pi ∧
      0 < |endAngle wRight - startAngle wRight|) := by
  have hr : wRight.radius ≠ 0 := by norm_num [wRight]
  have h := C3_arc_never_reflex wRight wRight_not_lenSkip wRight_not_angSkip
  exact ⟨⟨wRight_not_lenSkip, wRight_not_angSkip, hr⟩, h.1, h.2 hr⟩

/-- C3 counterexample: the zero-radius corner of `zPts` is not skipped and
`draw` emits an arc for it, but that arc has `end = start`: it subtends
angle `0`, which is not in `(0, π]`. -/
theorem C3_zero_radius_counterexample :
    (¬ lenSkip wZero ∧ ¬ angSkip wZero) ∧
    (drawStep false zPts 0 0).2 =
      [Emit.line 0 0 1 0, Emit.arc 1 0 0 0 0 0, Emit.line 1 0 1 1] ∧
    endAngle wZero - startAngle wZero = 0 ∧
    ¬ (0 < |endAngle wZero - startAngle wZero|) := by
  refine ⟨⟨wZero_not_lenSkip, wZero_not_angSkip⟩, ?_, ?_, ?_⟩
  · rw [drawStep_pass false zPts 0 0
      (by rw [winAt_zPts]; exact wZero_not_lenSkip)
      (by rw [winAt_zPts]; exact wZero_not_angSkip)]
    show [] ++ [] ++ coreEmits (winAt zPts 0) (0 == 0) = _
    rw [List.nil_append, List.nil_append, winAt_zPts, coreEmits, wZero_tanA,
      wZero_tanB, wZero_center, wZero_startAngle, wZero_endAngle]
    norm_num [wZero]
  · rw [wZero_endAngle, wZero_startAngle, sub_zero]
  · rw [wZero_endAngle, wZero_startAngle, sub_zero, abs_zero]
    exact lt_irrefl 0

/-! ### Frame conditions of the point-list mutation (C9) -/

lemma drawStep_length (debug : Bool) (pts : List CPoint) (i lastIdx : ℕ) :
    (drawStep debug pts i lastIdx).1.length = pts.length := by
  unfold drawStep
  split_ifs <;> simp [List.length_set]

lemma drawStep_getD_untouched (debug : Bool) (pts : List CPoint)
    (i lastIdx j : ℕ) (hj : j ≠ i + 1) :
    (drawStep debug pts i lastIdx).1.getD j (0, 0, 0) =
      pts.getD j (0, 0, 0) := by
  unfold drawStep
  split_ifs <;> try rfl
  all_goals
    show (pts.set (i + 1) _).getD j (0, 0, 0) = _
  all_goals
    rw [List.getD_eq_getElem?_getD, List.getElem?_set_ne (Ne.symm hj),
      ← List.getD_eq_getElem?_getD]

lemma drawStep_radius_pres (debug : Bool) (pts : List CPoint)
    (i lastIdx j : ℕ) :
    ((drawStep debug pts i lastIdx).1.getD j (0, 0, 0)).2.2 =
      (pts.getD j (0, 0, 0)).2.2 := by
  by_cases hj : j = i + 1
  · subst hj
    unfold drawStep
    split_ifs <;> try rfl
    all_goals
      show ((pts.set (i + 1) _).getD (i + 1) (0, 0, 0)).2.2 = _
    all_goals by_cases hin : i + 1 < pts.length
    case pos =>
      rw [List.getD_eq_getElem?_getD, List.getElem?_set_eq_of_lt _ hin,
        Option.getD_some]
    case neg =>
      rw [List.set_eq_of_length_le (by omega)]
    case pos =>
      rw [List.getD_eq_getElem?_getD, List.getElem?_set_eq_of_lt _ hin,
        Option.getD_some]
    case neg =>
      rw [List.set_eq_of_length_le (by omega)]
  · rw [drawStep_getD_untouched debug pts i lastIdx j hj]

lemma runFrom_length (debug : Bool) :
    ∀ (fuel : ℕ) (pts : List CPoint) (i lastIdx : ℕ),
      (runFrom debug fuel pts i lastIdx).1.length = pts.length := by
  intro fuel
  induction fuel with
  | zero => intro pts i lastIdx; rfl
  | succ f ih =>
    intro pts i lastIdx
    simp only [runFrom]
    rw [ih, drawStep_length]

lemma runFrom_radius_pres (debug : Bool) :
    ∀ (fuel : ℕ) (pts : List CPoint) (i lastIdx j : ℕ),
      ((runFrom debug fuel pts i lastIdx).1.getD j (0, 0, 0)).2.2 =
        (pts.getD j (0, 0, 0)).2.2 := by
  intro fuel
  induction fuel with
  | zero => intro pts i lastIdx j; rfl
  | succ f ih =>
    intro pts i lastIdx j
    simp only [runFrom]
    rw [ih, drawStep_radius_pres]

lemma runFrom_untouched_low (debug : Bool) :
    ∀ (fuel : ℕ) (pts : List CPoint) (i lastIdx j : ℕ), j ≤ i →
      (runFrom debug fuel pts i lastIdx).1.getD j (0, 0, 0) =
        pts.getD j (0, 0, 0) := by
  intro fuel
  induction fuel with
  | zero => intro pts i lastIdx j _; rfl
  | succ f ih =>
    intro pts i lastIdx j hj
    simp only [runFrom]
    rw [ih _ (i + 1) lastIdx j (by omega),
      drawStep_getD_untouched debug pts i lastIdx j (by omega)]

lemma runFrom_untouched_high (debug : Bool) :
    ∀ (fuel : ℕ) (pts : List CPoint) (i lastIdx j : ℕ), i + fuel < j →
      (runFrom debug fuel pts i lastIdx).1.getD j (0, 0, 0) =
        pts.getD j (0, 0, 0) := by
  intro fuel
  induction fuel with
  | zero => intro pts i lastIdx j _; rfl
  | succ f ih =>
    intro pts i lastIdx j hj
    simp only [runFrom]
    rw [ih _ (i + 1) lastIdx j (by omega),
      drawStep_getD_untouched debug pts i lastIdx j (by omega)]

/-- C9: `draw` never changes the length of the point list, never changes
any stored radius, and never modifies the first or the last control point;
its only writes are `List.set` position overwrites at interior indices. -/
theorem C9_frame :
    ∀ (debug : Bool) (pts : List CPoint),
      (draw debug pts).1.length = pts.length ∧
      (∀ j : ℕ, ((draw debug pts).1.getD j (0, 0, 0)).2.2 =
        (pts.getD j (0, 0, 0)).2.2) ∧
      (draw debug pts).1.getD 0 (0, 0, 0) = pts.getD 0 (0, 0, 0) ∧
      (draw debug pts).1.getD (pts.length - 1) (0, 0, 0) =
        pts.getD (pts.length - 1) (0, 0, 0) := by
  intro debug pts
  rw [draw]
  by_cases h : pts.length < 3
  · rw [if_pos h]
    exact ⟨rfl, fun j => rfl, rfl, rfl⟩
  · rw [if_neg h]
    push_neg at h
    refine ⟨runFrom_length debug _ pts 0 _,
      fun j => runFrom_radius_pres debug _ pts 0 _ j, ?_, ?_⟩
    · exact runFrom_untouched_low debug (pts.length - 2) pts 0 _ 0 le_rfl
    · exact runFrom_untouched_high debug (pts.length - 2) pts 0 _
        (pts.length - 1) (by omega)

/-! ### The non-debug trace is independent of the debug flag (C10) -/

lemma strokeState_append (s : ℤ) (xs ys : List Emit) :
    strokeState s (xs ++ ys) = strokeState (strokeState s xs) ys := by
  induction xs generalizing s with
  | nil => rfl
  | cons e rest ih => cases e <;> simp [strokeState, ih]

lemma nonDebugEmits_append (s : ℤ) (xs ys : List Emit) :
    nonDebugEmits s (xs ++ ys) =
      nonDebugEmits s xs ++ nonDebugEmits (strokeState s xs) ys := by
  induction xs generalizing s with
  | nil => rfl
  | cons e rest ih =>
    cases e with
    | stroke v => simp [nonDebugEmits, strokeState, ih]
    | line a b c d =>
      by_cases hs : s = 1 <;> simp [nonDebugEmits, strokeState, hs, ih]
    | arc a b c d f g =>
      by_cases hs : s = 1 <;> simp [nonDebugEmits, strokeState, hs, ih]
    | circle a b c =>
      by_cases hs : s = 1 <;> simp [nonDebugEmits, strokeState, hs, ih]

lemma strokeState_no_stroke (s : ℤ) (l : List Emit)
    (h : ∀ e ∈ l, isStroke e = false) : strokeState s l = s := by
  induction l with
  | nil => rfl
  | cons e rest ih =>
    cases e with
    | stroke v =>
      have := h _ (List.mem_cons_self _ _)
      simp [isStroke] at this
    | line a b c d =>
      rw [show strokeState s (Emit.line a b c d :: rest) = strokeState s rest
        from rfl]
      exact ih fun e he => h e (List.mem_cons_of_mem _ he)
    | arc a b c d f g =>
      rw [show strokeState s (Emit.arc a b c d f g :: rest) = strokeState s rest
        from rfl]
      exact ih fun e he => h e (List.mem_cons_of_mem _ he)
    | circle a b c =>
      rw [show strokeState s (Emit.circle a b c :: rest) = strokeState s rest
        from rfl]
      exact ih fun e he => h e (List.mem_cons_of_mem _ he)

lemma nonDebug_dropped (s : ℤ) (hs : s ≠ 1) (l : List Emit)
    (h : ∀ e ∈ l, isStroke e = false) : nonDebugEmits s l = [] := by
  induction l with
  | nil => rfl
  | cons e rest ih =>
    cases e with
    | stroke v =>
      have := h _ (List.mem_cons_self _ _)
      simp [isStroke] at this
    | line a b c d =>
      rw [show nonDebugEmits s (Emit.line a b c d :: rest) =
        (if s = 1 then Emit.line a b c d :: nonDebugEmits s rest
         else nonDebugEmits s rest) from rfl, if_neg hs]
      exact ih fun e he => h e (List.mem_cons_of_mem _ he)
    | arc a b c d f g =>
      rw [show nonDebugEmits s (Emit.arc a b c d f g :: rest) =
        (if s = 1 then Emit.arc a b c d f g :: nonDebugEmits s rest
         else nonDebugEmits s rest) from rfl, if_neg hs]
      exact ih fun e he => h e (List.mem_cons_of_mem _ he)
    | circle a b c =>
      rw [show nonDebugEmits s (Emit.circle a b c :: rest) =
        (if s = 1 then Emit.circle a b c :: nonDebugEmits s rest
         else nonDebugEmits s rest) from rfl, if_neg hs]
      exact ih fun e he => h e (List.mem_cons_of_mem _ he)

lemma nonDebug_kept (l : List Emit) (h : ∀ e ∈ l, isStroke e = false) :
    nonDebugEmits 1 l = l := by
  induction l with
  | nil => rfl
  | cons e rest ih =>
    have hrest := fun e he => h e (List.mem_cons_of_mem _ he)
    cases e with
    | stroke v =>
      have := h _ (List.mem_cons_self _ _)
      simp [isStroke] at this
    | line a b c d =>
      rw [show nonDebugEmits 1 (Emit.line a b c d :: rest) =
        (if (1 : ℤ) = 1 then Emit.line a b c d :: nonDebugEmits 1 rest
         else nonDebugEmits 1 rest) from rfl, if_pos rfl, ih hrest]
    | arc a b c d f g =>
      rw [show nonDebugEmits 1 (Emit.arc a b c d f g :: rest) =
        (if (1 : ℤ) = 1 then Emit.arc a b c d f g :: nonDebugEmits 1 rest
         else nonDebugEmits 1 rest) from rfl, if_pos rfl, ih hrest]
    | circle a b c =>
      rw [show nonDebugEmits 1 (Emit.circle a b c :: rest) =
        (if (1 : ℤ) = 1 then Emit.circle a b c :: nonDebugEmits 1 rest
         else nonDebugEmits 1 rest) from rfl, if_pos rfl, ih hrest]

lemma strokeState_debugWrap (s v : ℤ) (body : List Emit) :
    strokeState s (debugWrap v body) = 1 := by
  rw [debugWrap, strokeState_append]
  rfl

lemma nonDebug_debugWrap (v : ℤ) (hv : v ≠ 1) (body : List Emit)
    (h : ∀ e ∈ body, isStroke e = false) :
    nonDebugEmits 1 (debugWrap v body) = [] := by
  rw [debugWrap]
  rw [show ((Emit.stroke v :: body) ++ [Emit.stroke 1]) =
    Emit.stroke v :: (body ++ [Emit.stroke 1]) from rfl]
  rw [show nonDebugEmits 1 (Emit.stroke v :: (body ++ [Emit.stroke 1])) =
    nonDebugEmits v (body ++ [Emit.stroke 1]) from rfl]
  rw [nonDebugEmits_append, nonDebug_dropped v hv body h]
  rfl

lemma dbgPre_no_stroke_body (w : Win) :
    ∀ e ∈ [Emit.line w.Ax w.Ay w.gx w.gy, Emit.line w.gx w.gy w.Bx w.By],
      isStroke e = false := by
  intro e he
  rcases List.mem_cons.mp he with rfl | he
  · rfl
  rcases List.mem_cons.mp he with rfl | he
  · rfl
  simp at he

lemma strokeState_dbgPre (w : Win) : strokeState 1 (dbgPre w) = 1 :=
  strokeState_debugWrap 1 2 _

lemma nonDebug_dbgPre (w : Win) : nonDebugEmits 1 (dbgPre w) = [] :=
  nonDebug_debugWrap 2 (by norm_num) _ (dbgPre_no_stroke_body w)

lemma strokeState_dbgMid (w : Win) : strokeState 1 (dbgMid w) = 1 := by
  simp [dbgMid, strokeState_append, strokeState_debugWrap]

lemma nonDebug_dbgMid (w : Win) : nonDebugEmits 1 (dbgMid w) = [] := by
  have h1 : ∀ e ∈ [Emit.circle (center w).1 (center w).2 w.radius],
      isStroke e = false := by
    intro e he
    rcases List.mem_cons.mp he with rfl | he
    · rfl
    simp at he
  have h2 : ∀ e ∈ [Emit.circle (tanA w).1 (tanA w).2 ((5 : ℝ) / 100),
      Emit.circle (tanB w).1 (tanB w).2 ((5 : ℝ) / 100)],
      isStroke e = false := by
    intro e he
    rcases List.mem_cons.mp he with rfl | he
    · rfl
    rcases List.mem_cons.mp he with rfl | he
    · rfl
    simp at he
  have h3 : ∀ e ∈ [Emit.line w.gx w.gy (w.gx + 1 / 2 * (bisUnit w).1)
      (w.gy + 1 / 2 * (bisUnit w).2)], isStroke e = false := by
    intro e he
    rcases List.mem_cons.mp he with rfl | he
    · rfl
    simp at he
  have hA := nonDebug_debugWrap 2 (by norm_num) _ h1
  have hB := nonDebug_debugWrap 3 (by norm_num) _ h2
  have hC := nonDebug_debugWrap 3 (by norm_num) _ h3
  simp only [dbgMid, nonDebugEmits_append, strokeState_append,
    strokeState_debugWrap, hA, hB, hC, List.nil_append, List.append_nil]

lemma coreEmits_no_stroke (w : Win) (isLast : Bool) :
    ∀ e ∈ coreEmits w isLast, isStroke e = false := by
  intro e he
  rw [coreEmits] at he
  rcases List.mem_append.mp he with he | he
  · rcases List.mem_cons.mp he with rfl | he
    · rfl
    rcases List.mem_cons.mp he with rfl | he
    · rfl
    simp at he
  · cases isLast with
    | false => simp at he
    | true =>
      have he' : e = Emit.line (tanB w).1 (tanB w).2 w.Bx w.By := by
        simpa using he
      rw [he']
      rfl

lemma strokeState_core (w : Win) (isLast : Bool) :
    strokeState 1 (coreEmits w isLast) = 1 :=
  strokeState_no_stroke 1 _ (coreEmits_no_stroke w isLast)

lemma nonDebug_core (w : Win) (isLast : Bool) :
    nonDebugEmits 1 (coreEmits w isLast) = coreEmits w isLast :=
  nonDebug_kept _ (coreEmits_no_stroke w isLast)

lemma strokeState_pcGo (pts : List CPoint) :
    strokeState 1 (pointCirclesGo pts) = 1 := by
  induction pts with
  | nil => rfl
  | cons p rest ih =>
    rw [pointCirclesGo, strokeState_append, strokeState_debugWrap, ih]

lemma nonDebug_pcGo (pts : List CPoint) :
    nonDebugEmits 1 (pointCirclesGo pts) = [] := by
  induction pts with
  | nil => rfl
  | cons p rest ih =>
    have hb : ∀ e ∈ [Emit.circle p.1 p.2.1 ((1 : ℝ) / 10)],
        isStroke e = false := by
      intro e he
      rcases List.mem_cons.mp he with rfl | he
      · rfl
      simp at he
    rw [pointCirclesGo, nonDebugEmits_append, strokeState_debugWrap,
      nonDebug_debugWrap 2 (by norm_num) _ hb, ih]
    rfl

lemma drawStep_debug_rel (pts : List CPoint) (i lastIdx : ℕ) :
    (drawStep true pts i lastIdx).1 = (drawStep false pts i lastIdx).1 ∧
    nonDebugEmits 1 (drawStep true pts i lastIdx).2 =
      (drawStep false pts i lastIdx).2 ∧
    strokeState 1 (drawStep true pts i lastIdx).2 = 1 := by
  by_cases h1 : lenSkip (winAt pts i)
  · rw [drawStep_skip true pts i lastIdx (Or.inl h1),
      drawStep_skip false pts i lastIdx (Or.inl h1)]
    exact ⟨rfl, by simp [nonDebug_dbgPre], by simp [strokeState_dbgPre]⟩
  · by_cases h2 : angSkip (winAt pts i)
    · rw [drawStep_skip true pts i lastIdx (Or.inr h2),
        drawStep_skip false pts i lastIdx (Or.inr h2)]
      exact ⟨rfl, by simp [nonDebug_dbgPre], by simp [strokeState_dbgPre]⟩
    · rw [drawStep_pass true pts i lastIdx h1 h2,
        drawStep_pass false pts i lastIdx h1 h2]
      refine ⟨rfl, ?_, ?_⟩
      · show nonDebugEmits 1 (dbgPre (winAt pts i) ++ dbgMid (winAt pts i) ++
          coreEmits (winAt pts i) (i == lastIdx)) =
          [] ++ [] ++ coreEmits (winAt pts i) (i == lastIdx)
        rw [nonDebugEmits_append, nonDebugEmits_append, strokeState_dbgPre,
          strokeState_append, strokeState_dbgPre, strokeState_dbgMid,
          nonDebug_dbgPre, nonDebug_dbgMid, nonDebug_core]
      · show strokeState 1 (dbgPre (winAt pts i) ++ dbgMid (winAt pts i) ++
          coreEmits (winAt pts i) (i == lastIdx)) = 1
        rw [strokeState_append, strokeState_append, strokeState_dbgPre,
          strokeState_dbgMid, strokeState_core]

lemma runFrom_debug_rel :
    ∀ (fuel : ℕ) (pts : List CPoint) (i lastIdx : ℕ),
      (runFrom true fuel pts i lastIdx).1 =
        (runFrom false fuel pts i lastIdx).1 ∧
      nonDebugEmits 1 (runFrom true fuel pts i lastIdx).2 =
        (runFrom false fuel pts i lastIdx).2 ∧
      strokeState 1 (runFrom true fuel pts i lastIdx).2 = 1 := by
  intro fuel
  induction fuel with
  | zero => intro pts i lastIdx; exact ⟨rfl, rfl, rfl⟩
  | succ f ih =>
    intro pts i lastIdx
    obtain ⟨he1, he2, he3⟩ := drawStep_debug_rel pts i lastIdx
    obtain ⟨hi1, hi2, hi3⟩ := ih (drawStep true pts i lastIdx).1 (i + 1) lastIdx
    simp only [runFrom]
    refine ⟨?_, ?_, ?_⟩
    · rw [hi1, he1]
    · rw [nonDebugEmits_append, he2, he3, hi2, he1]
    · rw [strokeState_append, he3, hi3]

/-- C10: the final point list and the non-debug emission trace of `draw`
are independent of the debug flag: running with `debug = true` yields the
same final list, and filtering its trace to the events emitted while the
stroke style is the default `1` gives exactly the `debug = false` trace —
debug mode only adds debug-styled drawing calls and never alters the
computed geometry. -/
theorem C10_debug_independent :
    ∀ pts : List CPoint,
      (draw true pts).1 = (draw false pts).1 ∧
      nonDebugEmits 1 (draw true pts).2 = (draw false pts).2 := by
  intro pts
  rw [draw, draw]
  by_cases h : pts.length < 3
  · rw [if_pos h, if_pos h]
    refine ⟨rfl, ?_⟩
    show nonDebugEmits 1 (pointCircles true pts) = pointCircles false pts
    rw [pointCircles, pointCircles, if_pos rfl,
      if_neg (by simp : ¬ false = true), nonDebug_pcGo]
  · rw [if_neg h, if_neg h]
    obtain ⟨h1, h2, h3⟩ := runFrom_debug_rel (pts.length - 2) pts 0
      (pts.length - 3)
    refine ⟨h1, ?_⟩
    show nonDebugEmits 1 (pointCircles true pts ++
        (runFrom true (pts.length - 2) pts 0 (pts.length - 3)).2) =
      pointCircles false pts ++
        (runFrom false (pts.length - 2) pts 0 (pts.length - 3)).2
    rw [nonDebugEmits_append, pointCircles, if_pos rfl, strokeState_pcGo,
      nonDebug_pcGo, h2, pointCircles, if_neg (by simp : ¬ false = true)]

/-! ### Claim theorems: C7, C8 -/

/-- C7 (code bug): `_debug_draw` does not restore the previously active
stroke style.  On the normal path it sets the stroke to the hard-coded
constant `1` (`original_stroke = 1`), so a prior style `5` is lost; and
because the `yield` is not protected by `try/finally`, when the enclosed
drawing raises no restore runs at all and the stroke stays at the debug
value `2`. -/
theorem C7_stroke_not_restored :
    strokeState 5 (debugDrawRun true 2 [Emit.circle 0 0 (1 / 10)] true).1 = 1 ∧
    (1 : ℤ) ≠ 5 ∧
    strokeState 5 (debugDrawRun true 2 [Emit.circle 0 0 (1 / 10)] false).1 = 2 ∧
    (2 : ℤ) ≠ 5 := by
  refine ⟨?_, by norm_num, ?_, by norm_num⟩
  · simp [debugDrawRun, strokeState]
  · simp [debugDrawRun, strokeState]

/-- C8 (amended): for every window that passes the length checks and whose
interior angle is at most `π - 2·arcsin(5e-11)` — equivalently, whose
bisector length `2·cos(θ/2)` is at least `1e-10` — the perpendicular
fallback branch is not taken.  (The original claim, that passing the
`θ ≤ π - 1e-10` check suffices, fails: since `2·sin(x/2) < x`, angles in
`(π - 2·arcsin(5e-11), π - 1e-10]` pass the check yet trigger the
fallback, as the counterexample `wBad` shows.) -/
theorem C8_no_fallback_when_clear (w : Win) (hl : ¬ lenSkip w)
    (h2 : theta w ≤ Real.pi - 2 * Real.arcsin (eps / 2)) :
    eps ≤ bisLen w := by
  rw [lenSkip] at hl; push_neg at hl
  obtain ⟨hA, hB⟩ := hl
  have htheta0 := theta_nonneg w
  have harcsin_nn : 0 ≤ Real.arcsin (eps / 2) :=
    Real.arcsin_nonneg.mpr (by rw [eps]; norm_num)
  have hbound : Real.pi - 2 * Real.arcsin (eps / 2) ≤ Real.pi := by linarith
  have hcos : Real.cos (Real.pi - 2 * Real.arcsin (eps / 2)) ≤
      Real.cos (theta w) :=
    Real.cos_le_cos_of_nonneg_of_le_pi htheta0 hbound h2
  have heval : Real.cos (Real.pi - 2 * Real.arcsin (eps / 2)) =
      -(1 - 2 * (eps / 2) ^ 2) := by
    rw [Real.cos_pi_sub]
    congr 1
    have hs : Real.sin (Real.arcsin (eps / 2)) = eps / 2 :=
      Real.sin_arcsin (by rw [eps]; norm_num) (by rw [eps]; norm_num)
    have hcc := Real.cos_two_mul (Real.arcsin (eps / 2))
    have hsc := Real.sin_sq_add_cos_sq (Real.arcsin (eps / 2))
    have h1 : Real.cos (2 * Real.arcsin (eps / 2)) =
        1 - 2 * Real.sin (Real.arcsin (eps / 2)) ^ 2 := by linarith
    rw [h1, hs]
  rw [heval, cos_theta_eq] at hcos
  have hsq := bis_sq w hA hB
  have hd := dotc_cos_half w
  have hval : bisX w ^ 2 + bisY w ^ 2 = 2 + 2 * dotc w := by
    linear_combination hsq - 2 * hd
  have hge : eps ^ 2 ≤ bisX w ^ 2 + bisY w ^ 2 := by
    rw [hval]
    have hring : eps ^ 2 = 2 + 2 * (-(1 - 2 * (eps / 2) ^ 2)) := by ring
    linarith
  rw [bisLen]
  calc eps = Real.sqrt (eps ^ 2) := (Real.sqrt_sq eps_pos.le).symm
    _ ≤ Real.sqrt (bisX w ^ 2 + bisY w ^ 2) := Real.sqrt_le_sqrt hge

/-- Witness for C8 at the right-angle window: `θ = π/2` is well below the
`π - 2·arcsin(5e-11)` bound and the bisector length `√2` is at least
`1e-10`. -/
theorem C8_witness :
    (¬ lenSkip wRight ∧
      theta wRight ≤ Real.pi - 2 * Real.arcsin (eps / 2)) ∧
    eps ≤ bisLen wRight := by
  have harc : Real.arcsin (eps / 2) ≤ Real.pi / 4 := by
    have hmem : Real.arcsin (Real.sin (Real.pi / 4)) = Real.pi / 4 := by
      have hpi := Real.pi_pos
      exact Real.arcsin_sin (by linarith) (by linarith)
    rw [← hmem]
    apply Real.monotone_arcsin
    rw [Real.sin_pi_div_four, eps]
    nlinarith [one_le_sqrt_two]
  have h2 : theta wRight ≤ Real.pi - 2 * Real.arcsin (eps / 2) := by
    rw [wRight_theta]
    linarith
  exact ⟨⟨wRight_not_lenSkip, h2⟩,
    C8_no_fallback_when_clear wRight wRight_not_lenSkip h2⟩

/-! ### The near-straight counterexample window `wBad` -/

lemma sBad_pos : 0 < sBad := by rw [sBad]; norm_num

lemma wBad_AgLen : AgLen wBad = 1 := by
  have h : (wBad.gx - wBad.Ax) ^ 2 + (wBad.gy - wBad.Ay) ^ 2 = 1 := by
    norm_num [wBad]
  rw [AgLen, h, Real.sqrt_one]

lemma wBad_gBLen_eq : gBLen wBad = Real.sqrt (1 + sBad ^ 2) := by
  have h : (wBad.Bx - wBad.gx) ^ 2 + (wBad.By - wBad.gy) ^ 2 = 1 + sBad ^ 2 := by
    show ((2 : ℝ) - 1) ^ 2 + (sBad - 0) ^ 2 = 1 + sBad ^ 2
    ring
  rw [gBLen, h]

lemma one_le_gBLen : 1 ≤ gBLen wBad := by
  rw [wBad_gBLen_eq]
  calc (1 : ℝ) = Real.sqrt 1 := Real.sqrt_one.symm
    _ ≤ Real.sqrt (1 + sBad ^ 2) :=
        Real.sqrt_le_sqrt (by nlinarith [sq_nonneg sBad])

lemma wBad_gBLen_pos : 0 < gBLen wBad := lt_of_lt_of_le one_pos one_le_gBLen

lemma wBad_gBLen_sq : gBLen wBad ^ 2 = 1 + sBad ^ 2 := by
  rw [wBad_gBLen_eq]
  exact Real.sq_sqrt (by positivity)

lemma wBad_ux : ux wBad = 1 := by
  rw [ux, wBad_AgLen]; norm_num [wBad]

lemma wBad_uy : uy wBad = 0 := by
  rw [uy, wBad_AgLen]; norm_num [wBad]

lemma wBad_vx : vx wBad = 1 / gBLen wBad := by
  rw [vx]; norm_num [wBad]

lemma wBad_vy : vy wBad = sBad / gBLen wBad := by
  rw [vy]; norm_num [wBad]

lemma wBad_dotc : dotc wBad = -(1 / gBLen wBad) := by
  rw [dotc, wBad_ux, wBad_uy, wBad_vx, wBad_vy]
  have hR := wBad_gBLen_pos
  have h1 : 1 / gBLen wBad ≤ 1 := by
    rw [div_le_one hR]; exact one_le_gBLen
  have h0 : 0 < 1 / gBLen wBad := by positivity
  have harith : (1 : ℝ) * -(1 / gBLen wBad) + 0 * -(sBad / gBLen wBad) =
      -(1 / gBLen wBad) := by ring
  rw [harith, min_eq_right (by linarith), max_eq_right (by linarith)]

lemma wBad_theta_eq : theta wBad = Real.arccos (-(1 / gBLen wBad)) := by
  rw [theta, wBad_dotc]

lemma q_ineq : (1 - eps ^ 2 / 2) ^ 2 * (1 + sBad ^ 2) < 1 := by
  rw [eps, sBad]; norm_num

lemma Clow_ineq :
    1 ≤ (1 - 2 * (eps / 2 - (eps / 2) ^ 3 / 6 + (eps / 2) ^ 4 * (5 / 96)) ^ 2) ^ 2 *
      (1 + sBad ^ 2) := by
  rw [eps, sBad]; norm_num

lemma Clow_pos :
    0 < 1 - 2 * (eps / 2 - (eps / 2) ^ 3 / 6 + (eps / 2) ^ 4 * (5 / 96)) ^ 2 := by
  rw [eps]; norm_num

lemma cos_eps_lb :
    1 - 2 * (eps / 2 - (eps / 2) ^ 3 / 6 + (eps / 2) ^ 4 * (5 / 96)) ^ 2 ≤
      Real.cos eps := by
  have hy_pos : 0 < eps / 2 := by rw [eps]; norm_num
  have hy_le : |eps / 2| ≤ 1 := by rw [abs_of_pos hy_pos, eps]; norm_num
  have hsb := Real.sin_bound hy_le
  rw [abs_of_pos hy_pos] at hsb
  have hsin_ub : Real.sin (eps / 2) ≤
      eps / 2 - (eps / 2) ^ 3 / 6 + (eps / 2) ^ 4 * (5 / 96) := by
    have h := abs_le.mp hsb
    linarith [h.2]
  have hsin_nn : 0 ≤ Real.sin (eps / 2) := by
    apply Real.sin_nonneg_of_nonneg_of_le_pi hy_pos.le
    have := Real.pi_gt_three
    rw [eps]; nlinarith
  have hsq : Real.sin (eps / 2) ^ 2 ≤
      (eps / 2 - (eps / 2) ^ 3 / 6 + (eps / 2) ^ 4 * (5 / 96)) ^ 2 := by
    nlinarith [hsin_ub, hsin_nn]
  have hcos : Real.cos eps = 1 - 2 * Real.sin (eps / 2) ^ 2 := by
    have hcc := Real.cos_two_mul (eps / 2)
    have hsc := Real.sin_sq_add_cos_sq (eps / 2)
    have h2y : (2 : ℝ) * (eps / 2) = eps := by ring
    rw [h2y] at hcc
    linarith
  rw [hcos]
  linarith

lemma inv_gBLen_le_Clow : 1 / gBLen wBad ≤
    1 - 2 * (eps / 2 - (eps / 2) ^ 3 / 6 + (eps / 2) ^ 4 * (5 / 96)) ^ 2 := by
  have hCpos := Clow_pos
  have hR := wBad_gBLen_pos
  have hsq := wBad_gBLen_sq
  have hP : 0 < (1 - 2 * (eps / 2 - (eps / 2) ^ 3 / 6 +
      (eps / 2) ^ 4 * (5 / 96)) ^ 2) * gBLen wBad := mul_pos hCpos hR
  have h1 : 1 ≤ (1 - 2 * (eps / 2 - (eps / 2) ^ 3 / 6 +
      (eps / 2) ^ 4 * (5 / 96)) ^ 2) * gBLen wBad := by
    by_contra hcon
    push_neg at hcon
    have hsqlt : ((1 - 2 * (eps / 2 - (eps / 2) ^ 3 / 6 +
        (eps / 2) ^ 4 * (5 / 96)) ^ 2) * gBLen wBad) ^ 2 < 1 := by
      nlinarith [hP]
    have heq : ((1 - 2 * (eps / 2 - (eps / 2) ^ 3 / 6 +
        (eps / 2) ^ 4 * (5 / 96)) ^ 2) * gBLen wBad) ^ 2 =
        (1 - 2 * (eps / 2 - (eps / 2) ^ 3 / 6 +
          (eps / 2) ^ 4 * (5 / 96)) ^ 2) ^ 2 * (1 + sBad ^ 2) := by
      rw [mul_pow, hsq]
    rw [heq] at hsqlt
    linarith [Clow_ineq]
  rw [div_le_iff hR]
  linarith

lemma theta_wBad_ub : theta wBad ≤ Real.pi - eps := by
  rw [wBad_theta_eq]
  have hR := wBad_gBLen_pos
  have h1R : 1 / gBLen wBad ≤ 1 := by
    rw [div_le_one hR]; exact one_le_gBLen
  have h0R : 0 < 1 / gBLen wBad := by positivity
  have hcosle : Real.cos (Real.pi - eps) ≤ -(1 / gBLen wBad) := by
    rw [Real.cos_pi_sub]
    linarith [inv_gBLen_le_Clow, cos_eps_lb]
  have hrange1 : 0 ≤ Real.pi - eps := by
    have := Real.pi_gt_three; rw [eps]; nlinarith
  have hrange2 : Real.pi - eps ≤ Real.pi := by
    have := eps_pos; linarith
  have harccos : Real.arccos (Real.cos (Real.pi - eps)) = Real.pi - eps :=
    Real.arccos_cos hrange1 hrange2
  rw [← harccos]
  exact Real.strictAntiOn_arccos.antitoneOn
    ⟨by linarith [Real.neg_one_le_cos (Real.pi - eps)],
      by linarith [Real.cos_le_one (Real.pi - eps)]⟩
    ⟨by linarith, by linarith⟩ hcosle

lemma theta_wBad_lb : eps ≤ theta wBad := by
  rw [wBad_theta_eq]
  have hR := wBad_gBLen_pos
  have h1R : 1 / gBLen wBad ≤ 1 := by
    rw [div_le_one hR]; exact one_le_gBLen
  have h0R : 0 < 1 / gBLen wBad := by positivity
  have h0 : Real.pi / 2 ≤ Real.arccos (-(1 / gBLen wBad)) := by
    rw [← Real.arccos_zero]
    exact Real.strictAntiOn_arccos.antitoneOn
      ⟨by linarith, by linarith⟩
      ⟨by norm_num, by norm_num⟩ (by linarith)
  have := Real.pi_gt_three
  rw [eps]
  nlinarith

lemma wBad_not_lenSkip : ¬ lenSkip wBad := by
  rw [lenSkip, wBad_AgLen]
  push_neg
  constructor
  · rw [eps]; norm_num
  · calc eps ≤ 1 := by rw [eps]; norm_num
      _ ≤ gBLen wBad := one_le_gBLen

lemma wBad_not_angSkip : ¬ angSkip wBad := by
  rw [angSkip]
  push_neg
  exact ⟨theta_wBad_lb, theta_wBad_ub⟩

lemma wBad_bis_sum :
    bisX wBad ^ 2 + bisY wBad ^ 2 = 2 - 2 * (1 / gBLen wBad) := by
  rw [bisX, bisY, wBad_ux, wBad_uy, wBad_vx, wBad_vy]
  have hR := wBad_gBLen_pos
  have hsq := wBad_gBLen_sq
  field_simp
  linear_combination (-gBLen wBad) * hsq

lemma wBad_inv_gt : 1 - eps ^ 2 / 2 < 1 / gBLen wBad := by
  have hR := wBad_gBLen_pos
  have hsq := wBad_gBLen_sq
  have hqpos : (0 : ℝ) < 1 - eps ^ 2 / 2 := by rw [eps]; norm_num
  have hP : 0 < (1 - eps ^ 2 / 2) * gBLen wBad := mul_pos hqpos hR
  have h1 : (1 - eps ^ 2 / 2) * gBLen wBad < 1 := by
    by_contra hcon
    push_neg at hcon
    have hsqge : 1 ≤ ((1 - eps ^ 2 / 2) * gBLen wBad) ^ 2 := by
      nlinarith [hP]
    have heq : ((1 - eps ^ 2 / 2) * gBLen wBad) ^ 2 =
        (1 - eps ^ 2 / 2) ^ 2 * (1 + sBad ^ 2) := by
      rw [mul_pow, hsq]
    rw [heq] at hsqge
    linarith [q_ineq]
  rw [lt_div_iff hR]
  exact h1

lemma wBad_bisLen_lt : bisLen wBad < eps := by
  rw [bisLen, Real.sqrt_lt' eps_pos, wBad_bis_sum]
  have := wBad_inv_gt
  have heq : eps ^ 2 = (1 / 10 ^ 10 : ℝ) ^ 2 := by rw [eps]
  nlinarith

/-- C8 counterexample: at the explicit window `wBad` — with
`B = (2, 1e-10 + 3.55e-31)` — both skip checks pass (in particular
`θ ≤ π - 1e-10`) yet the bisector length is below `1e-10`, so `draw` takes
the perpendicular fallback branch, refuting the claim that it is never
taken. -/
theorem C8_fallback_counterexample :
    (¬ lenSkip wBad ∧ ¬ angSkip wBad) ∧
    bisLen wBad < eps ∧ bisUnit wBad = (uy wBad, -ux wBad) := by
  refine ⟨⟨wBad_not_lenSkip, wBad_not_angSkip⟩, wBad_bisLen_lt, ?_⟩
  rw [bisUnit, if_pos wBad_bisLen_lt]

lemma theta_wBad_gt_half : Real.pi / 2 < theta wBad := by
  rw [wBad_theta_eq]
  simp only [Real.arccos]
  have h : Real.arcsin (-(1 / gBLen wBad)) < 0 :=
    Real.arcsin_lt_zero.mpr (neg_lt_zero.mpr (one_div_pos.mpr wBad_gBLen_pos))
  linarith

lemma wBad_tan_gt : 1 < Real.tan (theta wBad / 2) := by
  rw [← Real.tan_pi_div_four]
  have hpi := Real.pi_pos
  have hlt := theta_wBad_gt_half
  have hub := theta_lt_pi wBad theta_wBad_ub
  exact Real.strictMonoOn_tan
    ⟨by linarith, by linarith⟩
    ⟨by linarith, by linarith⟩ (by linarith)

lemma wBad_radius_eq : wBad.radius = 1 := rfl

lemma wBad_tdist_lt : tdist wBad < min (AgLen wBad) (gBLen wBad) := by
  rw [wBad_AgLen, min_eq_left one_le_gBLen, tdist, wBad_radius_eq]
  rw [div_lt_one (by linarith [wBad_tan_gt])]
  exact wBad_tan_gt

lemma wBad_tdist_pos : 0 < tdist wBad :=
  tdist_pos wBad (by rw [wBad_radius_eq]; norm_num) theta_wBad_lb theta_wBad_ub

lemma wBad_sin_half_lt_one : Real.sin (theta wBad / 2) < 1 := by
  rw [← Real.sin_pi_div_two]
  have hpi := Real.pi_pos
  have hlb := theta_pos wBad theta_wBad_lb
  have hub := theta_lt_pi wBad theta_wBad_ub
  exact Real.strictMonoOn_sin
    ⟨by linarith, by linarith⟩
    ⟨by linarith, by linarith⟩ (by linarith)

lemma wBad_cdist_gt : 1 < cdist wBad := by
  rw [cdist, wBad_radius_eq,
    one_lt_div (sin_half_pos wBad theta_wBad_lb theta_wBad_ub)]
  exact wBad_sin_half_lt_one

lemma wBad_bisUnit : bisUnit wBad = (0, -1) := by
  rw [bisUnit, if_pos wBad_bisLen_lt, wBad_uy, wBad_ux]

lemma wBad_center : center wBad = (1, -cdist wBad) := by
  rw [center, wBad_bisUnit]
  refine Prod.ext ?_ ?_
  · show wBad.gx + cdist wBad * 0 = 1
    rw [show wBad.gx = (1 : ℝ) from rfl]; ring
  · show wBad.gy + cdist wBad * (-1) = -(cdist wBad)
    rw [show wBad.gy = (0 : ℝ) from rfl]; ring

lemma wBad_tanA : tanA wBad = (1 - tdist wBad, 0) := by
  rw [tanA, wBad_ux, wBad_uy]
  refine Prod.ext ?_ ?_
  · show wBad.gx - tdist wBad * 1 = 1 - tdist wBad
    rw [show wBad.gx = (1 : ℝ) from rfl]; ring
  · show wBad.gy - tdist wBad * 0 = 0
    rw [show wBad.gy = (0 : ℝ) from rfl]; ring

lemma wBad_dist_gt : 1 < dist2 (center wBad) (tanA wBad) := by
  rw [dist2, wBad_center, wBad_tanA]
  show (1 : ℝ) < Real.sqrt ((1 - (1 - tdist wBad)) ^ 2 +
    (-(cdist wBad) - 0) ^ 2)
  rw [Real.lt_sqrt (by norm_num)]
  nlinarith [wBad_cdist_gt, wBad_tdist_pos]

/-- C1 counterexample: at the explicit window `wBad` all hypotheses of the
claim hold — segment lengths at least `1e-10`, interior angle inside the
pass band, radius `1 > 0`, tangent distance below both segment lengths —
yet the computed center is **not** at distance `r` from the tangent point
`a`: the bisector fallback is taken there and the center-to-tangent
distance strictly exceeds the radius. -/
theorem C1_fallback_counterexample :
    (eps ≤ AgLen wBad ∧ eps ≤ gBLen wBad ∧ eps ≤ theta wBad ∧
      theta wBad ≤ Real.pi - eps ∧ 0 < wBad.radius ∧
      tdist wBad < min (AgLen wBad) (gBLen wBad)) ∧
    dist2 (center wBad) (tanA wBad) ≠ wBad.radius := by
  refine ⟨⟨?_, ?_, theta_wBad_lb, theta_wBad_ub, ?_, wBad_tdist_lt⟩, ?_⟩
  · rw [wBad_AgLen, eps]; norm_num
  · calc eps ≤ 1 := by rw [eps]; norm_num
      _ ≤ gBLen wBad := one_le_gBLen
  · rw [wBad_radius_eq]; norm_num
  · rw [wBad_radius_eq]
    exact ne_of_gt wBad_dist_gt

end Cornrad
